import Mathlib

/-!
# Verification of `softwareventures/date-time` (`src/index.ts`)

A shallow embedding of the library in Lean 4.

JavaScript numbers are idealized: finite values are modelled as exact
rationals (`ℚ`), and the non-finite values `NaN`, `+Infinity`, `-Infinity`
are modelled explicitly by the inductive type `JsNum`.  Outputs of the
library's own functions (the `DateTime` record) carry plain `ℚ` fields.

The external collaborator packages `@softwareventures/date` (day-count
conversion, leap years, days-in-month) and `@softwareventures/time`
(time-of-day/seconds conversion) are not part of this repository; their
behaviour is modelled from the spec's collaborator contracts (§6) and each
such definition is marked `Modelled from the spec:` in its doc comment.
-/

namespace SV

/-- Truncation toward zero of a rational number, as performed by the
JavaScript `%` operator on its implied quotient. -/
def ratTrunc (q : ℚ) : ℤ := if q < 0 then ⌈q⌉ else ⌊q⌋

/-- The JavaScript remainder operator `%` on finite numbers with a nonzero
divisor: `a % b = a - b * trunc (a / b)` (sign follows the dividend). -/
def jsMod (a b : ℚ) : ℚ := a - b * ratTrunc (a / b)

theorem ratTrunc_of_nonneg {q : ℚ} (h : 0 ≤ q) : ratTrunc q = ⌊q⌋ := by
  simp [ratTrunc, not_lt.mpr h]

theorem jsMod_of_mem_Ico {a b : ℚ} (hb : 0 < b) (h0 : 0 ≤ a) (h1 : a < b) :
    jsMod a b = a := by
  have hq0 : 0 ≤ a / b := div_nonneg h0 hb.le
  have hq1 : a / b < 1 := (div_lt_one hb).mpr h1
  have : ⌊a / b⌋ = 0 := Int.floor_eq_zero_iff.mpr ⟨hq0, hq1⟩
  simp [jsMod, ratTrunc_of_nonneg hq0, this]

theorem jsMod_add_self_of_mem_Ico {a b : ℚ} (hb : 0 < b) (h0 : 0 ≤ a) (h1 : a < b) :
    jsMod (b + a) b = a := by
  have h0' : (0 : ℚ) ≤ b + a := by linarith
  have hq0 : 0 ≤ (b + a) / b := div_nonneg h0' hb.le
  have hfloor : ⌊(b + a) / b⌋ = 1 := by
    have hsplit : (b + a) / b = 1 + a / b := by field_simp
    rw [hsplit]
    have hq0' : 0 ≤ a / b := div_nonneg h0 hb.le
    have hq1 : a / b < 1 := (div_lt_one hb).mpr h1
    have hz : ⌊a / b⌋ = 0 := Int.floor_eq_zero_iff.mpr ⟨hq0', hq1⟩
    rw [show (1 : ℚ) + a / b = ((1 : ℤ) : ℚ) + a / b by norm_num, Int.floor_int_add, hz]
    norm_num
  rw [jsMod, ratTrunc_of_nonneg hq0, hfloor]
  push_cast
  ring

/-- Floor division of a rational by a positive integer agrees with integer
(euclidean) division of its floor. -/
theorem floor_div_int_eq (x : ℚ) (n : ℤ) (hn : 0 < n) : ⌊x / (n : ℚ)⌋ = ⌊x⌋ / n := by
  have hnq : (0 : ℚ) < (n : ℚ) := by exact_mod_cast hn
  have key : n * (⌊x⌋ / n) + ⌊x⌋ % n = ⌊x⌋ := Int.ediv_add_emod ⌊x⌋ n
  have hlt : ⌊x⌋ % n < n := Int.emod_lt_of_pos ⌊x⌋ hn
  have hge : 0 ≤ ⌊x⌋ % n := Int.emod_nonneg ⌊x⌋ (ne_of_gt hn)
  rw [Int.floor_eq_iff]
  constructor
  · rw [le_div_iff₀ hnq]
    have h2 : n * (⌊x⌋ / n) ≤ ⌊x⌋ := by linarith
    have h1 : ((⌊x⌋ / n : ℤ) : ℚ) * (n : ℚ) ≤ (⌊x⌋ : ℚ) := by
      rw [mul_comm]
      exact_mod_cast h2
    have h3 := Int.floor_le x
    linarith
  · rw [div_lt_iff₀ hnq]
    have h2' : ⌊x⌋ + 1 ≤ ⌊x⌋ / n * n + n := by linarith [key]
    have h2 : (⌊x⌋ : ℚ) + 1 ≤ ((⌊x⌋ / n : ℤ) : ℚ) * (n : ℚ) + (n : ℚ) := by exact_mod_cast h2'
    have h3 := Int.lt_floor_add_one x
    have h4 : (((⌊x⌋ / n : ℤ) : ℚ) + 1) * (n : ℚ) = ((⌊x⌋ / n : ℤ) : ℚ) * (n : ℚ) + (n : ℚ) := by
      ring
    linarith

namespace Date

/-- Modelled from the spec: the leap-year rule of the external
`@softwareventures/date` collaborator (proleptic Gregorian; year `0`,
i.e. 1 BCE, is a leap year). -/
def isLeapYear (y : ℤ) : Bool := y % 4 == 0 && (y % 100 != 0 || y % 400 == 0)

theorem isLeapYear_iff (y : ℤ) :
    isLeapYear y = true ↔ (y % 4 = 0 ∧ (y % 100 ≠ 0 ∨ y % 400 = 0)) := by
  simp [isLeapYear]

theorem isLeapYear_eq_false_iff (y : ℤ) :
    isLeapYear y = false ↔ ¬(y % 4 = 0 ∧ (y % 100 ≠ 0 ∨ y % 400 = 0)) := by
  rw [← isLeapYear_iff]
  simp

/-- Length of month `m ∈ [1,12]` in a year whose leap flag is `leap`. -/
def monthLength (m : ℤ) (leap : Bool) : ℤ :=
  if m = 2 then (if leap then 29 else 28)
  else if m = 4 ∨ m = 6 ∨ m = 9 ∨ m = 11 then 30
  else 31

/-- Modelled from the spec: the month-bounds query
`(month, year) -> integer day count` of the external collaborator,
leap-year aware. -/
def daysInMonth (m y : ℤ) : ℤ := monthLength m (isLeapYear y)

/-- Days from 1 January of year 1 CE to 1 January of year `y`
(proleptic Gregorian, signed). -/
def daysBeforeYear (y : ℤ) : ℤ :=
  365 * (y - 1) + (y - 1) / 4 - (y - 1) / 100 + (y - 1) / 400

/-- Days from 1 January to the first of month `m` (for `m ∈ [1,12]`) in a
year whose leap flag is `leap`. -/
def daysBeforeMonth (m : ℤ) (leap : Bool) : ℤ :=
  let f : ℤ := if leap then 1 else 0
  if m ≤ 1 then 0
  else if m = 2 then 31
  else if m = 3 then 59 + f
  else if m = 4 then 90 + f
  else if m = 5 then 120 + f
  else if m = 6 then 151 + f
  else if m = 7 then 181 + f
  else if m = 8 then 212 + f
  else if m = 9 then 243 + f
  else if m = 10 then 273 + f
  else if m = 11 then 304 + f
  else 334 + f

/-- Year and 0-based day-of-year of a signed reference day count
(day 0 = 1 January 1 CE), by 400/100/4/1-year block decomposition. -/
def toYearDoy (n : ℤ) : ℤ × ℤ :=
  let n400 := n / 146097
  let r0 := n % 146097
  let n100 := r0 / 36524
  let r1 := r0 % 36524
  let n4 := r1 / 1461
  let r2 := r1 % 1461
  let n1 := r2 / 365
  let r3 := r2 % 365
  if n100 = 4 ∨ n1 = 4 then (400 * n400 + 100 * n100 + 4 * n4 + n1, 365)
  else (400 * n400 + 100 * n100 + 4 * n4 + n1 + 1, r3)

/-- Conversion from 0-based day-of-year to month and day-of-month, by cumulative table. -/
def monthDayOfDoy (leap : Bool) (doy : ℤ) : ℤ × ℤ :=
  let f : ℤ := if leap then 1 else 0
  if doy < 31 then (1, doy + 1)
  else if doy < 59 + f then (2, doy - 30)
  else if doy < 90 + f then (3, doy - 58 - f)
  else if doy < 120 + f then (4, doy - 89 - f)
  else if doy < 151 + f then (5, doy - 119 - f)
  else if doy < 181 + f then (6, doy - 150 - f)
  else if doy < 212 + f then (7, doy - 180 - f)
  else if doy < 243 + f then (8, doy - 211 - f)
  else if doy < 273 + f then (9, doy - 242 - f)
  else if doy < 304 + f then (10, doy - 272 - f)
  else if doy < 334 + f then (11, doy - 303 - f)
  else (12, doy - 333 - f)

theorem daysBeforeYear_succ (y : ℤ) :
    daysBeforeYear (y + 1) = daysBeforeYear y + (if isLeapYear y then 366 else 365) := by
  rcases Bool.eq_false_or_eq_true (isLeapYear y) with hL | hL
  · have h := (isLeapYear_iff y).mp hL
    rw [hL]
    norm_num
    unfold daysBeforeYear
    omega
  · have h := (isLeapYear_eq_false_iff y).mp hL
    rw [hL]
    norm_num
    unfold daysBeforeYear
    omega

theorem daysBeforeYear_mono {a b : ℤ} (h : a ≤ b) :
    daysBeforeYear a ≤ daysBeforeYear b := by
  unfold daysBeforeYear
  omega

theorem toYearDoy_spec_aux (n n400 r0 n100 r1 n4 r2 n1 r3 y doy : ℤ)
    (e400 : n = 146097 * n400 + r0) (hr0 : 0 ≤ r0 ∧ r0 ≤ 146096)
    (e100 : r0 = 36524 * n100 + r1) (hr1 : 0 ≤ r1 ∧ r1 ≤ 36523)
    (e4 : r1 = 1461 * n4 + r2) (hr2 : 0 ≤ r2 ∧ r2 ≤ 1460)
    (e1 : r2 = 365 * n1 + r3) (hr3 : 0 ≤ r3 ∧ r3 ≤ 364)
    (hy : (if n100 = 4 ∨ n1 = 4
           then ((400 * n400 + 100 * n100 + 4 * n4 + n1 : ℤ), (365 : ℤ))
           else (400 * n400 + 100 * n100 + 4 * n4 + n1 + 1, r3)) = (y, doy)) :
    daysBeforeYear y + doy = n ∧ 0 ≤ doy ∧
      doy < 365 + (if isLeapYear y then 1 else 0) := by
  have hn4a : 0 ≤ n4 := by omega
  have hn4b : n4 ≤ 24 := by omega
  have hn1a : 0 ≤ n1 := by omega
  have hn1b : n1 ≤ 4 := by omega
  have hn100a : 0 ≤ n100 := by omega
  have hn100b : n100 ≤ 4 := by omega
  split_ifs at hy with h
  · injection hy with hy1 hy2
    subst hy1
    subst hy2
    rcases h with h | h
    · -- n100 = 4 : last day of the 400-year cycle
      have hr1z : r1 = 0 := by omega
      have hn4z : n4 = 0 := by omega
      have hn1z : n1 = 0 := by omega
      have hleap : isLeapYear (400 * n400 + 100 * n100 + 4 * n4 + n1) = true := by
        rw [isLeapYear_iff]
        subst hn4z hn1z h
        constructor
        · omega
        · right
          omega
      rw [hleap]
      simp only [if_true]
      refine ⟨?_, by norm_num, by norm_num⟩
      unfold daysBeforeYear
      subst hn4z hn1z h
      omega
    · -- n1 = 4 : last day of a 4-year block
      have hr2e : r2 = 1460 := by omega
      have hn4b' : n4 ≤ 23 := by omega
      have hn100b' : n100 ≤ 3 := by omega
      have hleap : isLeapYear (400 * n400 + 100 * n100 + 4 * n4 + n1) = true := by
        rw [isLeapYear_iff]
        subst h
        constructor
        · omega
        · left
          omega
      rw [hleap]
      simp only [if_true]
      refine ⟨?_, by norm_num, by norm_num⟩
      unfold daysBeforeYear
      subst h
      have hf : (400 * n400 + 100 * n100 + 4 * n4 + 4 - 1) / 4 = 100 * n400 + 25 * n100 + n4 := by
        omega
      have hg : (400 * n400 + 100 * n100 + 4 * n4 + 4 - 1) / 100 = 4 * n400 + n100 := by
        omega
      have hi : (400 * n400 + 100 * n100 + 4 * n4 + 4 - 1) / 400 = n400 := by
        omega
      rw [hf, hg, hi]
      omega
  · injection hy with hy1 hy2
    subst hy1
    subst hy2
    have hn100b' : n100 ≤ 3 := by omega
    have hn1b' : n1 ≤ 3 := by omega
    refine ⟨?_, by omega, by split_ifs <;> omega⟩
    unfold daysBeforeYear
    have hf : (400 * n400 + 100 * n100 + 4 * n4 + n1 + 1 - 1) / 4
        = 100 * n400 + 25 * n100 + n4 := by
      omega
    have hg : (400 * n400 + 100 * n100 + 4 * n4 + n1 + 1 - 1) / 100 = 4 * n400 + n100 := by
      omega
    have hi : (400 * n400 + 100 * n100 + 4 * n4 + n1 + 1 - 1) / 400 = n400 := by
      omega
    rw [hf, hg, hi]
    omega

theorem toYearDoy_spec (n : ℤ) :
    daysBeforeYear (toYearDoy n).1 + (toYearDoy n).2 = n ∧ 0 ≤ (toYearDoy n).2 ∧
      (toYearDoy n).2 < 365 + (if isLeapYear (toYearDoy n).1 then 1 else 0) := by
  obtain ⟨y, doy, e⟩ : ∃ y doy, toYearDoy n = (y, doy) := ⟨_, _, rfl⟩
  rw [e]
  dsimp only
  refine toYearDoy_spec_aux n (n / 146097) (n % 146097) (n % 146097 / 36524)
      (n % 146097 % 36524) (n % 146097 % 36524 / 1461) (n % 146097 % 36524 % 1461)
      (n % 146097 % 36524 % 1461 / 365) (n % 146097 % 36524 % 1461 % 365) y doy
      (by omega) (by omega) (by omega) (by omega) (by omega) (by omega) (by omega)
      (by omega) ?_
  exact e


/-- Number of days in year `y`. -/
def yearLength (y : ℤ) : ℤ := if isLeapYear y then 366 else 365

theorem yearLength_eq (y : ℤ) : yearLength y = 365 + (if isLeapYear y then 1 else 0) := by
  unfold yearLength
  split_ifs <;> norm_num

theorem yearLength_bounds (y : ℤ) : 365 ≤ yearLength y ∧ yearLength y ≤ 366 := by
  unfold yearLength
  split_ifs <;> norm_num

theorem daysBeforeYear_add_one (y : ℤ) :
    daysBeforeYear (y + 1) = daysBeforeYear y + yearLength y := by
  rw [daysBeforeYear_succ, yearLength]

theorem toYearDoy_correct (n : ℤ) :
    daysBeforeYear (toYearDoy n).1 + (toYearDoy n).2 = n ∧ 0 ≤ (toYearDoy n).2 ∧
      (toYearDoy n).2 < yearLength (toYearDoy n).1 := by
  obtain ⟨h1, h2, h3⟩ := toYearDoy_spec n
  rw [yearLength_eq]
  exact ⟨h1, h2, h3⟩

theorem monthDayOfDoy_spec_aux (leap : Bool) (f doy m d : ℤ)
    (hf : (if leap then (1 : ℤ) else 0) = f) (h0 : 0 ≤ doy) (h1 : doy < 365 + f)
    (e : monthDayOfDoy leap doy = (m, d)) :
    1 ≤ m ∧ m ≤ 12 ∧ 1 ≤ d ∧ d ≤ monthLength m leap ∧
      daysBeforeMonth m leap + (d - 1) = doy := by
  have hf01 : f = 0 ∨ f = 1 := by
    rcases leap with _ | _ <;> norm_num at hf <;> omega
  have h29 : (if leap then (29 : ℤ) else 28) = 28 + f := by
    rcases leap with _ | _ <;> norm_num at hf ⊢ <;> omega
  rw [monthDayOfDoy] at e
  rw [hf] at e
  rcases lt_or_ge doy (31 : ℤ) with hc1 | hc1
  · rw [if_pos hc1] at e
    injection e with e1 e2
    subst e1
    subst e2
    rw [monthLength, daysBeforeMonth, hf, h29]
    norm_num
    omega
  rw [if_neg (not_lt.mpr hc1)] at e
  rcases lt_or_ge doy (59 + f) with hc2 | hc2
  · rw [if_pos hc2] at e
    injection e with e1 e2
    subst e1
    subst e2
    rw [monthLength, daysBeforeMonth, hf, h29]
    norm_num
    omega
  rw [if_neg (not_lt.mpr hc2)] at e
  rcases lt_or_ge doy (90 + f) with hc3 | hc3
  · rw [if_pos hc3] at e
    injection e with e1 e2
    subst e1
    subst e2
    rw [monthLength, daysBeforeMonth, hf, h29]
    norm_num
    omega
  rw [if_neg (not_lt.mpr hc3)] at e
  rcases lt_or_ge doy (120 + f) with hc4 | hc4
  · rw [if_pos hc4] at e
    injection e with e1 e2
    subst e1
    subst e2
    rw [monthLength, daysBeforeMonth, hf, h29]
    norm_num
    omega
  rw [if_neg (not_lt.mpr hc4)] at e
  rcases lt_or_ge doy (151 + f) with hc5 | hc5
  · rw [if_pos hc5] at e
    injection e with e1 e2
    subst e1
    subst e2
    rw [monthLength, daysBeforeMonth, hf, h29]
    norm_num
    omega
  rw [if_neg (not_lt.mpr hc5)] at e
  rcases lt_or_ge doy (181 + f) with hc6 | hc6
  · rw [if_pos hc6] at e
    injection e with e1 e2
    subst e1
    subst e2
    rw [monthLength, daysBeforeMonth, hf, h29]
    norm_num
    omega
  rw [if_neg (not_lt.mpr hc6)] at e
  rcases lt_or_ge doy (212 + f) with hc7 | hc7
  · rw [if_pos hc7] at e
    injection e with e1 e2
    subst e1
    subst e2
    rw [monthLength, daysBeforeMonth, hf, h29]
    norm_num
    omega
  rw [if_neg (not_lt.mpr hc7)] at e
  rcases lt_or_ge doy (243 + f) with hc8 | hc8
  · rw [if_pos hc8] at e
    injection e with e1 e2
    subst e1
    subst e2
    rw [monthLength, daysBeforeMonth, hf, h29]
    norm_num
    omega
  rw [if_neg (not_lt.mpr hc8)] at e
  rcases lt_or_ge doy (273 + f) with hc9 | hc9
  · rw [if_pos hc9] at e
    injection e with e1 e2
    subst e1
    subst e2
    rw [monthLength, daysBeforeMonth, hf, h29]
    norm_num
    omega
  rw [if_neg (not_lt.mpr hc9)] at e
  rcases lt_or_ge doy (304 + f) with hc10 | hc10
  · rw [if_pos hc10] at e
    injection e with e1 e2
    subst e1
    subst e2
    rw [monthLength, daysBeforeMonth, hf, h29]
    norm_num
    omega
  rw [if_neg (not_lt.mpr hc10)] at e
  rcases lt_or_ge doy (334 + f) with hc11 | hc11
  · rw [if_pos hc11] at e
    injection e with e1 e2
    subst e1
    subst e2
    rw [monthLength, daysBeforeMonth, hf, h29]
    norm_num
    omega
  rw [if_neg (not_lt.mpr hc11)] at e
  injection e with e1 e2
  subst e1
  subst e2
  rw [monthLength, daysBeforeMonth, hf, h29]
  norm_num
  omega

theorem monthDayOfDoy_spec (leap : Bool) (f doy : ℤ)
    (hf : (if leap then (1 : ℤ) else 0) = f) (h0 : 0 ≤ doy) (h1 : doy < 365 + f) :
    1 ≤ (monthDayOfDoy leap doy).1 ∧ (monthDayOfDoy leap doy).1 ≤ 12 ∧
    1 ≤ (monthDayOfDoy leap doy).2 ∧
    (monthDayOfDoy leap doy).2 ≤ monthLength (monthDayOfDoy leap doy).1 leap ∧
    daysBeforeMonth (monthDayOfDoy leap doy).1 leap + ((monthDayOfDoy leap doy).2 - 1)
      = doy :=
  monthDayOfDoy_spec_aux leap f doy _ _ hf h0 h1 Prod.mk.eta.symm

theorem daysBeforeMonth_bounds (leap : Bool) (f m : ℤ)
    (hf : (if leap then (1 : ℤ) else 0) = f) (hm : 1 ≤ m ∧ m ≤ 12) :
    0 ≤ daysBeforeMonth m leap ∧
      daysBeforeMonth m leap + monthLength m leap ≤ 365 + f := by
  rcases hm with ⟨hm1, hm2⟩
  subst hf
  rcases leap with _ | _ <;> interval_cases m <;> norm_num [daysBeforeMonth, monthLength]

theorem daysBeforeMonth_step (leap : Bool) (m m' : ℤ) (h1 : 1 ≤ m) (h2 : m < m')
    (h3 : m' ≤ 12) :
    daysBeforeMonth m leap + monthLength m leap ≤ daysBeforeMonth m' leap := by
  have h4 : m ≤ 11 := by omega
  have h5 : 2 ≤ m' := by omega
  rcases leap with _ | _ <;> interval_cases m <;> interval_cases m' <;>
    norm_num [daysBeforeMonth, monthLength]

theorem monthDay_inj (leap : Bool) (m d m' d' : ℤ)
    (hm : 1 ≤ m ∧ m ≤ 12) (hd : 1 ≤ d ∧ d ≤ monthLength m leap)
    (hm' : 1 ≤ m' ∧ m' ≤ 12) (hd' : 1 ≤ d' ∧ d' ≤ monthLength m' leap)
    (he : daysBeforeMonth m leap + (d - 1) = daysBeforeMonth m' leap + (d' - 1)) :
    m = m' ∧ d = d' := by
  rcases lt_trichotomy m m' with hlt | heq | hgt
  · exfalso
    have := daysBeforeMonth_step leap m m' hm.1 hlt hm'.2
    omega
  · subst heq
    omega
  · exfalso
    have := daysBeforeMonth_step leap m' m hm'.1 hgt hm.2
    omega

theorem monthDayOfDoy_of_valid (m d : ℤ) (leap : Bool) (hm : 1 ≤ m ∧ m ≤ 12)
    (hd : 1 ≤ d ∧ d ≤ monthLength m leap) :
    monthDayOfDoy leap (daysBeforeMonth m leap + (d - 1)) = (m, d) := by
  obtain ⟨f, hf, hf01⟩ : ∃ f, (if leap then (1 : ℤ) else 0) = f ∧ (f = 0 ∨ f = 1) := by
    rcases leap with _ | _
    · exact ⟨0, rfl, Or.inl rfl⟩
    · exact ⟨1, rfl, Or.inr rfl⟩
  have hb := daysBeforeMonth_bounds leap f m hf hm
  obtain ⟨m', d', e⟩ : ∃ a b, monthDayOfDoy leap (daysBeforeMonth m leap + (d - 1)) = (a, b) :=
    ⟨_, _, Prod.mk.eta.symm⟩
  obtain ⟨h1, h2, h3, h4, h5⟩ :=
    monthDayOfDoy_spec_aux leap f _ m' d' hf (by omega) (by omega) e
  obtain ⟨hmm, hdd⟩ :=
    monthDay_inj leap m' d' m d ⟨h1, h2⟩ ⟨h3, h4⟩ hm hd (by omega)
  rw [e, hmm, hdd]

/-- Modelled from the spec: the external day-count-to-calendar conversion
`(days) -> {year, month, day}` of `@softwareventures/date`
(inverse of the day-count function; day 0 = 1 January 1 CE). -/
def fromReferenceDays (n : ℤ) : ℤ × ℤ × ℤ :=
  ((toYearDoy n).1,
   (monthDayOfDoy (isLeapYear (toYearDoy n).1) (toYearDoy n).2).1,
   (monthDayOfDoy (isLeapYear (toYearDoy n).1) (toYearDoy n).2).2)

/-- Modelled from the spec: the external calendar-to-day-count conversion
`(year, month, day) -> integer days since epoch` of `@softwareventures/date`,
tolerating out-of-range month and day by carrying over. -/
def toReferenceDays (y m d : ℤ) : ℤ :=
  let y2 := y + (m - 1) / 12
  let m2 := (m - 1) % 12 + 1
  daysBeforeYear y2 + daysBeforeMonth m2 (isLeapYear y2) + (d - 1)

theorem toReferenceDays_of_month_valid (y m d : ℤ) (hm : 1 ≤ m ∧ m ≤ 12) :
    toReferenceDays y m d
      = daysBeforeYear y + daysBeforeMonth m (isLeapYear y) + (d - 1) := by
  have hdiv : y + (m - 1) / 12 = y := by omega
  have hmod : (m - 1) % 12 + 1 = m := by omega
  unfold toReferenceDays
  rw [hdiv, hmod]

theorem fromReferenceDays_valid (n : ℤ) :
    1 ≤ (fromReferenceDays n).2.1 ∧ (fromReferenceDays n).2.1 ≤ 12 ∧
    1 ≤ (fromReferenceDays n).2.2 ∧
    (fromReferenceDays n).2.2
      ≤ daysInMonth (fromReferenceDays n).2.1 (fromReferenceDays n).1 := by
  obtain ⟨hsum, hd0, hd1⟩ := toYearDoy_spec n
  obtain ⟨h1, h2, h3, h4, h5⟩ :=
    monthDayOfDoy_spec (isLeapYear (toYearDoy n).1) _ (toYearDoy n).2 rfl hd0 hd1
  exact ⟨h1, h2, h3, h4⟩

theorem toReferenceDays_fromReferenceDays (n : ℤ) :
    toReferenceDays (fromReferenceDays n).1 (fromReferenceDays n).2.1
      (fromReferenceDays n).2.2 = n := by
  obtain ⟨hsum, hd0, hd1⟩ := toYearDoy_spec n
  obtain ⟨h1, h2, h3, h4, h5⟩ :=
    monthDayOfDoy_spec (isLeapYear (toYearDoy n).1) _ (toYearDoy n).2 rfl hd0 hd1
  show toReferenceDays (toYearDoy n).1
      (monthDayOfDoy (isLeapYear (toYearDoy n).1) (toYearDoy n).2).1
      (monthDayOfDoy (isLeapYear (toYearDoy n).1) (toYearDoy n).2).2 = n
  rw [toReferenceDays_of_month_valid _ _ _ ⟨h1, h2⟩]
  omega

theorem fromReferenceDays_toReferenceDays (y m d : ℤ) (hm : 1 ≤ m ∧ m ≤ 12)
    (hd : 1 ≤ d ∧ d ≤ daysInMonth m y) :
    fromReferenceDays (toReferenceDays y m d) = (y, m, d) := by
  rw [daysInMonth] at hd
  have hn := toReferenceDays_of_month_valid y m d hm
  obtain ⟨f, hf, hf01⟩ : ∃ f, (if isLeapYear y then (1 : ℤ) else 0) = f
      ∧ (f = 0 ∨ f = 1) := by
    rcases Bool.eq_false_or_eq_true (isLeapYear y) with hL | hL <;> rw [hL]
    · exact ⟨1, rfl, Or.inr rfl⟩
    · exact ⟨0, rfl, Or.inl rfl⟩
  have hb := daysBeforeMonth_bounds (isLeapYear y) f m hf hm
  have hyl : yearLength y = 365 + f := by
    rw [yearLength_eq, hf]
  have hdoy0 : 0 ≤ daysBeforeMonth m (isLeapYear y) + (d - 1) := by omega
  have hdoy1 : daysBeforeMonth m (isLeapYear y) + (d - 1) < yearLength y := by omega
  have hyd : toYearDoy (toReferenceDays y m d)
      = (y, daysBeforeMonth m (isLeapYear y) + (d - 1)) := by
    obtain ⟨y', doy', e⟩ : ∃ a b, toYearDoy (toReferenceDays y m d) = (a, b) :=
      ⟨_, _, Prod.mk.eta.symm⟩
    obtain ⟨hsum, h0', h1'⟩ := toYearDoy_correct (toReferenceDays y m d)
    rw [e] at hsum h0' h1'
    dsimp only at hsum h0' h1'
    rw [hn] at hsum
    rcases lt_trichotomy y y' with hlt | heq | hgt
    · exfalso
      have hstep : daysBeforeYear (y + 1) ≤ daysBeforeYear y' := daysBeforeYear_mono hlt
      have hsucc := daysBeforeYear_add_one y
      omega
    · subst heq
      rw [e]
      have hde : daysBeforeMonth m (isLeapYear y) + (d - 1) = doy' := by omega
      rw [hde]
    · exfalso
      have hstep : daysBeforeYear (y' + 1) ≤ daysBeforeYear y := daysBeforeYear_mono hgt
      have hsucc := daysBeforeYear_add_one y'
      have hyl' := yearLength_bounds y'
      omega
  show ((toYearDoy (toReferenceDays y m d)).1,
      (monthDayOfDoy (isLeapYear (toYearDoy (toReferenceDays y m d)).1)
        (toYearDoy (toReferenceDays y m d)).2).1,
      (monthDayOfDoy (isLeapYear (toYearDoy (toReferenceDays y m d)).1)
        (toYearDoy (toReferenceDays y m d)).2).2) = (y, m, d)
  rw [hyd]
  dsimp only
  rw [monthDayOfDoy_of_valid m d (isLeapYear y) hm hd]

end Date

namespace Time

/-- Modelled from the spec: the external time-of-day-to-seconds conversion of
`@softwareventures/time`: `hours * 3600 + minutes * 60 + seconds`. -/
def toReferenceSeconds (hours minutes seconds : ℚ) : ℚ :=
  hours * 3600 + minutes * 60 + seconds

/-- Modelled from the spec: the external seconds-to-time-of-day conversion of
`@softwareventures/time`.  The repository only calls it with arguments in
`[0, 86400)`, where it decomposes into whole hours, whole minutes and
remaining (possibly fractional) seconds. -/
def fromReferenceSeconds (x : ℚ) : ℚ × ℚ × ℚ :=
  ((⌊x / 3600⌋ : ℚ), (⌊x / 60⌋ : ℚ) - 60 * (⌊x / 3600⌋ : ℚ), x - 60 * (⌊x / 60⌋ : ℚ))

theorem timeFromReferenceSeconds_spec (x : ℚ) (h0 : 0 ≤ x) (h1 : x < 86400) :
    ∃ hh mm : ℤ,
      fromReferenceSeconds x = ((hh : ℚ), (mm : ℚ), x - 60 * (⌊x / 60⌋ : ℚ)) ∧
      0 ≤ hh ∧ hh ≤ 23 ∧ 0 ≤ mm ∧ mm ≤ 59 ∧
      0 ≤ x - 60 * (⌊x / 60⌋ : ℚ) ∧ x - 60 * (⌊x / 60⌋ : ℚ) < 60 ∧
      (hh : ℚ) * 3600 + (mm : ℚ) * 60 + (x - 60 * (⌊x / 60⌋ : ℚ)) = x := by
  have h3600 : ⌊x / (3600 : ℚ)⌋ = ⌊x⌋ / 3600 := by
    rw [show (3600 : ℚ) = ((3600 : ℤ) : ℚ) by norm_num]
    exact floor_div_int_eq x 3600 (by norm_num)
  have h60 : ⌊x / (60 : ℚ)⌋ = ⌊x⌋ / 60 := by
    rw [show (60 : ℚ) = ((60 : ℤ) : ℚ) by norm_num]
    exact floor_div_int_eq x 60 (by norm_num)
  have hN0 : 0 ≤ ⌊x⌋ := Int.floor_nonneg.mpr h0
  have hN1 : ⌊x⌋ < 86400 := Int.floor_lt.mpr (by exact_mod_cast h1)
  have hfl := Int.floor_le x
  have hfu := Int.lt_floor_add_one x
  refine ⟨⌊x⌋ / 3600, ⌊x⌋ / 60 - 60 * (⌊x⌋ / 3600), ?_, by omega, by omega, by omega,
    by omega, ?_, ?_, ?_⟩
  · unfold fromReferenceSeconds
    rw [h3600, h60]
    push_cast
    norm_num
  · have hq : ((60 * (⌊x⌋ / 60) : ℤ) : ℚ) ≤ ((⌊x⌋ : ℤ) : ℚ) := by
      exact_mod_cast (by omega : 60 * (⌊x⌋ / 60) ≤ ⌊x⌋)
    rw [h60]
    push_cast at hq ⊢
    linarith
  · have hq : ((⌊x⌋ : ℤ) : ℚ) + 1 ≤ ((60 * (⌊x⌋ / 60) + 60 : ℤ) : ℚ) := by
      exact_mod_cast (by omega : ⌊x⌋ + 1 ≤ 60 * (⌊x⌋ / 60) + 60)
    rw [h60]
    push_cast at hq ⊢
    linarith
  · rw [h60]
    push_cast
    ring

end Time

/-- The `DateTime` record of the library (the runtime `type` tag is constant
and omitted from the model; fields are idealized finite JS numbers). -/
structure DateTime where
  year : ℚ
  month : ℚ
  day : ℚ
  hours : ℚ
  minutes : ℚ
  seconds : ℚ
deriving DecidableEq, Repr

/-- Function `fromReferenceSeconds` of `src/index.ts` after its `isFinite` guard:
floor to reference days, convert the date part, double-`%`-normalize the
in-day seconds, convert the time part. -/
def fromReferenceSeconds (referenceSeconds : ℚ) : DateTime :=
  let referenceDays : ℤ := ⌊referenceSeconds / 86400⌋
  let ymd := Date.fromReferenceDays referenceDays
  let referenceSecondsInDays : ℚ :=
    jsMod (86400 + jsMod (referenceSeconds - (referenceDays : ℚ) * 86400) 86400) 86400
  let hms := Time.fromReferenceSeconds referenceSecondsInDays
  ⟨(ymd.1 : ℚ), (ymd.2.1 : ℚ), (ymd.2.2 : ℚ), hms.1, hms.2.1, hms.2.2⟩

theorem sub_floor_day_bounds (s : ℚ) :
    0 ≤ s - (⌊s / 86400⌋ : ℚ) * 86400 ∧ s - (⌊s / 86400⌋ : ℚ) * 86400 < 86400 := by
  have h1 := Int.floor_le (s / 86400)
  have h2 := Int.lt_floor_add_one (s / 86400)
  constructor <;> nlinarith

theorem referenceSecondsInDays_eq (s : ℚ) :
    jsMod (86400 + jsMod (s - (⌊s / 86400⌋ : ℚ) * 86400) 86400) 86400
      = s - (⌊s / 86400⌋ : ℚ) * 86400 := by
  obtain ⟨h0, h1⟩ := sub_floor_day_bounds s
  rw [jsMod_of_mem_Ico (by norm_num) h0 h1]
  exact jsMod_add_self_of_mem_Ico (by norm_num) h0 h1

/-- Full characterization of `fromReferenceSeconds`: explicit integer field
values, their ranges, and the two decomposition identities used by the
round-trip theorems. -/
theorem fromReferenceSeconds_spec (s : ℚ) :
    ∃ (y m d hh mm : ℤ) (ss : ℚ),
      fromReferenceSeconds s
        = ⟨(y : ℚ), (m : ℚ), (d : ℚ), (hh : ℚ), (mm : ℚ), ss⟩ ∧
      1 ≤ m ∧ m ≤ 12 ∧ 1 ≤ d ∧ d ≤ Date.daysInMonth m y ∧
      0 ≤ hh ∧ hh ≤ 23 ∧ 0 ≤ mm ∧ mm ≤ 59 ∧ 0 ≤ ss ∧ ss < 60 ∧
      Date.toReferenceDays y m d = ⌊s / 86400⌋ ∧
      (hh : ℚ) * 3600 + (mm : ℚ) * 60 + ss = s - (⌊s / 86400⌋ : ℚ) * 86400 := by
  obtain ⟨h0, h1⟩ := sub_floor_day_bounds s
  obtain ⟨hh, mm, htime, hh0, hh1, hm0, hm1, hs0, hs1, hsum⟩ :=
    Time.timeFromReferenceSeconds_spec (s - (⌊s / 86400⌋ : ℚ) * 86400) h0 h1
  obtain ⟨hv1, hv2, hv3, hv4⟩ := Date.fromReferenceDays_valid ⌊s / 86400⌋
  have hrt := Date.toReferenceDays_fromReferenceDays ⌊s / 86400⌋
  refine ⟨(Date.fromReferenceDays ⌊s / 86400⌋).1, (Date.fromReferenceDays ⌊s / 86400⌋).2.1,
    (Date.fromReferenceDays ⌊s / 86400⌋).2.2, hh, mm,
    s - (⌊s / 86400⌋ : ℚ) * 86400 - 60 * (⌊(s - (⌊s / 86400⌋ : ℚ) * 86400) / 60⌋ : ℚ),
    ?_, hv1, hv2, hv3, hv4, hh0, hh1, hm0, hm1, hs0, hs1, hrt, hsum⟩
  unfold fromReferenceSeconds
  dsimp only
  rw [referenceSecondsInDays_eq, htime]

namespace Date

theorem floor_intCast_div_pos (a n : ℤ) (hn : 0 < n) :
    ⌊(a : ℚ) / ((n : ℤ) : ℚ)⌋ = a / n := by
  rw [SV.floor_div_int_eq _ n hn, Int.floor_intCast]

/-- Modelled from the spec: ℚ-level (finite JS number) year-offset formula of
the external day-count conversion; agrees with `daysBeforeYear` at integer
points. -/
def daysBeforeYearQ (y : ℚ) : ℚ :=
  365 * (y - 1) + (⌊(y - 1) / 4⌋ : ℚ) - (⌊(y - 1) / 100⌋ : ℚ) + (⌊(y - 1) / 400⌋ : ℚ)

/-- Modelled from the spec: ℚ-level leap-year test (a JS number is a leap year
exactly when it is an integer satisfying the Gregorian rule; the divisibility
tests are remainder-is-zero tests, on which floored and truncated remainders
agree). -/
def isLeapYearQ (y : ℚ) : Bool :=
  decide (y - 4 * (⌊y / 4⌋ : ℚ) = 0) &&
    (!decide (y - 100 * (⌊y / 100⌋ : ℚ) = 0) || decide (y - 400 * (⌊y / 400⌋ : ℚ) = 0))

/-- Modelled from the spec: ℚ-level month-offset table used by the
ℚ-level day-count model; agrees with `daysBeforeMonth` at integer points. -/
def daysBeforeMonthQ (m : ℚ) (leap : Bool) : ℚ :=
  let f : ℚ := if leap then 1 else 0
  if m ≤ 1 then 0
  else if m = 2 then 31
  else if m = 3 then 59 + f
  else if m = 4 then 90 + f
  else if m = 5 then 120 + f
  else if m = 6 then 151 + f
  else if m = 7 then 181 + f
  else if m = 8 then 212 + f
  else if m = 9 then 243 + f
  else if m = 10 then 273 + f
  else if m = 11 then 304 + f
  else 334 + f

/-- Modelled from the spec: ℚ-level calendar-to-day-count conversion of
`@softwareventures/date` (month carry by floor division / floored remainder);
agrees with `toReferenceDays` at integer points. -/
def toReferenceDaysQ (y m d : ℚ) : ℚ :=
  let y2 := y + (⌊(m - 1) / 12⌋ : ℚ)
  let m2 := m - 1 - 12 * (⌊(m - 1) / 12⌋ : ℚ) + 1
  daysBeforeYearQ y2 + daysBeforeMonthQ m2 (isLeapYearQ y2) + (d - 1)

theorem daysBeforeYearQ_intCast (y : ℤ) :
    daysBeforeYearQ (y : ℚ) = ((daysBeforeYear y : ℤ) : ℚ) := by
  unfold daysBeforeYearQ daysBeforeYear
  have hc : ((y : ℚ) - 1) = (((y - 1 : ℤ) : ℤ) : ℚ) := by push_cast; ring
  rw [hc, show (4 : ℚ) = ((4 : ℤ) : ℚ) by norm_num,
    show (100 : ℚ) = ((100 : ℤ) : ℚ) by norm_num,
    show (400 : ℚ) = ((400 : ℤ) : ℚ) by norm_num,
    floor_intCast_div_pos _ 4 (by norm_num), floor_intCast_div_pos _ 100 (by norm_num),
    floor_intCast_div_pos _ 400 (by norm_num)]
  push_cast
  ring

theorem sub_mul_floor_intCast_eq_zero_iff (y n : ℤ) (hn : 0 < n) :
    ((y : ℚ) - (n : ℚ) * (⌊(y : ℚ) / ((n : ℤ) : ℚ)⌋ : ℚ) = 0) ↔ y % n = 0 := by
  rw [floor_intCast_div_pos y n hn]
  have hde := Int.ediv_add_emod y n
  constructor
  · intro h
    have h2 : (y : ℚ) = (n : ℚ) * ((y / n : ℤ) : ℚ) := by linarith
    have h3 : y = n * (y / n) := by exact_mod_cast h2
    linarith
  · intro h
    have h3 : y = n * (y / n) := by linarith
    have h2 : (y : ℚ) = ((n * (y / n) : ℤ) : ℚ) := by exact_mod_cast h3
    push_cast at h2
    linarith

theorem isLeapYearQ_intCast (y : ℤ) : isLeapYearQ (y : ℚ) = isLeapYear y := by
  unfold isLeapYearQ isLeapYear
  have e4 : decide ((y : ℚ) - ((4 : ℤ) : ℚ) * (⌊(y : ℚ) / ((4 : ℤ) : ℚ)⌋ : ℚ) = 0)
      = decide (y % 4 = 0) :=
    decide_eq_decide.mpr (sub_mul_floor_intCast_eq_zero_iff y 4 (by norm_num))
  have e100 : decide ((y : ℚ) - ((100 : ℤ) : ℚ) * (⌊(y : ℚ) / ((100 : ℤ) : ℚ)⌋ : ℚ) = 0)
      = decide (y % 100 = 0) :=
    decide_eq_decide.mpr (sub_mul_floor_intCast_eq_zero_iff y 100 (by norm_num))
  have e400 : decide ((y : ℚ) - ((400 : ℤ) : ℚ) * (⌊(y : ℚ) / ((400 : ℤ) : ℚ)⌋ : ℚ) = 0)
      = decide (y % 400 = 0) :=
    decide_eq_decide.mpr (sub_mul_floor_intCast_eq_zero_iff y 400 (by norm_num))
  rw [show (4 : ℚ) = ((4 : ℤ) : ℚ) by norm_num,
    show (100 : ℚ) = ((100 : ℤ) : ℚ) by norm_num,
    show (400 : ℚ) = ((400 : ℤ) : ℚ) by norm_num,
    e4, e100, e400]
  by_cases h4 : y % 4 = 0 <;> by_cases h100 : y % 100 = 0 <;> by_cases h400 : y % 400 = 0 <;>
    simp [h4, h100, h400]

theorem daysBeforeMonthQ_intCast (m : ℤ) (leap : Bool) :
    daysBeforeMonthQ (m : ℚ) leap = ((daysBeforeMonth m leap : ℤ) : ℚ) := by
  unfold daysBeforeMonthQ daysBeforeMonth
  rcases le_or_lt m 1 with h1 | h1
  · rw [if_pos (show ((m : ℚ)) ≤ 1 by exact_mod_cast h1), if_pos h1]
    norm_num
  rw [if_neg (show ¬((m : ℚ) ≤ 1) by exact_mod_cast not_le.mpr h1), if_neg (not_le.mpr h1)]
  rcases eq_or_ne m 2 with h2 | h2
  · rw [if_pos (show ((m : ℚ)) = 2 by exact_mod_cast h2), if_pos h2]
    rcases leap with _ | _ <;> norm_num
  rw [if_neg (show ¬((m : ℚ) = 2) by exact_mod_cast h2), if_neg h2]
  rcases eq_or_ne m 3 with h3 | h3
  · rw [if_pos (show ((m : ℚ)) = 3 by exact_mod_cast h3), if_pos h3]
    rcases leap with _ | _ <;> norm_num
  rw [if_neg (show ¬((m : ℚ) = 3) by exact_mod_cast h3), if_neg h3]
  rcases eq_or_ne m 4 with h4 | h4
  · rw [if_pos (show ((m : ℚ)) = 4 by exact_mod_cast h4), if_pos h4]
    rcases leap with _ | _ <;> norm_num
  rw [if_neg (show ¬((m : ℚ) = 4) by exact_mod_cast h4), if_neg h4]
  rcases eq_or_ne m 5 with h5 | h5
  · rw [if_pos (show ((m : ℚ)) = 5 by exact_mod_cast h5), if_pos h5]
    rcases leap with _ | _ <;> norm_num
  rw [if_neg (show ¬((m : ℚ) = 5) by exact_mod_cast h5), if_neg h5]
  rcases eq_or_ne m 6 with h6 | h6
  · rw [if_pos (show ((m : ℚ)) = 6 by exact_mod_cast h6), if_pos h6]
    rcases leap with _ | _ <;> norm_num
  rw [if_neg (show ¬((m : ℚ) = 6) by exact_mod_cast h6), if_neg h6]
  rcases eq_or_ne m 7 with h7 | h7
  · rw [if_pos (show ((m : ℚ)) = 7 by exact_mod_cast h7), if_pos h7]
    rcases leap with _ | _ <;> norm_num
  rw [if_neg (show ¬((m : ℚ) = 7) by exact_mod_cast h7), if_neg h7]
  rcases eq_or_ne m 8 with h8 | h8
  · rw [if_pos (show ((m : ℚ)) = 8 by exact_mod_cast h8), if_pos h8]
    rcases leap with _ | _ <;> norm_num
  rw [if_neg (show ¬((m : ℚ) = 8) by exact_mod_cast h8), if_neg h8]
  rcases eq_or_ne m 9 with h9 | h9
  · rw [if_pos (show ((m : ℚ)) = 9 by exact_mod_cast h9), if_pos h9]
    rcases leap with _ | _ <;> norm_num
  rw [if_neg (show ¬((m : ℚ) = 9) by exact_mod_cast h9), if_neg h9]
  rcases eq_or_ne m 10 with h10 | h10
  · rw [if_pos (show ((m : ℚ)) = 10 by exact_mod_cast h10), if_pos h10]
    rcases leap with _ | _ <;> norm_num
  rw [if_neg (show ¬((m : ℚ) = 10) by exact_mod_cast h10), if_neg h10]
  rcases eq_or_ne m 11 with h11 | h11
  · rw [if_pos (show ((m : ℚ)) = 11 by exact_mod_cast h11), if_pos h11]
    rcases leap with _ | _ <;> norm_num
  rw [if_neg (show ¬((m : ℚ) = 11) by exact_mod_cast h11), if_neg h11]
  rcases leap with _ | _ <;> norm_num

theorem toReferenceDaysQ_intCast (y m d : ℤ) :
    toReferenceDaysQ (y : ℚ) (m : ℚ) (d : ℚ) = ((toReferenceDays y m d : ℤ) : ℚ) := by
  unfold toReferenceDaysQ toReferenceDays
  have hc : ((m : ℚ) - 1) = (((m - 1 : ℤ) : ℤ) : ℚ) := by push_cast; ring
  have hfl : (⌊((m : ℚ) - 1) / (12 : ℚ)⌋ : ℤ) = (m - 1) / 12 := by
    rw [hc, show (12 : ℚ) = ((12 : ℤ) : ℚ) by norm_num, floor_intCast_div_pos _ 12 (by norm_num)]
  have hy2 : (y : ℚ) + (⌊((m : ℚ) - 1) / (12 : ℚ)⌋ : ℚ) = ((y + (m - 1) / 12 : ℤ) : ℚ) := by
    rw [hfl]
    push_cast
    ring
  have hm2 : (m : ℚ) - 1 - 12 * (⌊((m : ℚ) - 1) / (12 : ℚ)⌋ : ℚ) + 1
      = (((m - 1) % 12 + 1 : ℤ) : ℚ) := by
    rw [hfl]
    have : (m - 1) % 12 = (m - 1) - 12 * ((m - 1) / 12) := by omega
    rw [this]
    push_cast
    ring
  dsimp only
  rw [hy2, hm2, daysBeforeYearQ_intCast, isLeapYearQ_intCast, daysBeforeMonthQ_intCast]
  push_cast
  ring

end Date

theorem Time.fromReferenceSeconds_of_valid (hh mm : ℤ) (ss : ℚ)
    (hh' : 0 ≤ hh ∧ hh ≤ 23) (hmm' : 0 ≤ mm ∧ mm ≤ 59) (hss : 0 ≤ ss ∧ ss < 60) :
    Time.fromReferenceSeconds ((hh : ℚ) * 3600 + (mm : ℚ) * 60 + ss)
      = ((hh : ℚ), (mm : ℚ), ss) := by
  have hmmq0 : (0 : ℚ) ≤ (mm : ℚ) := by exact_mod_cast hmm'.1
  have hmmq1 : (mm : ℚ) ≤ 59 := by exact_mod_cast hmm'.2
  have h3600 : ⌊((hh : ℚ) * 3600 + (mm : ℚ) * 60 + ss) / 3600⌋ = hh := by
    have hsplit : ((hh : ℚ) * 3600 + (mm : ℚ) * 60 + ss) / 3600
        = (hh : ℚ) + ((mm : ℚ) * 60 + ss) / 3600 := by
      field_simp
      ring
    rw [hsplit, show ((hh : ℚ) + ((mm : ℚ) * 60 + ss) / 3600)
        = ((hh : ℤ) : ℚ) + ((mm : ℚ) * 60 + ss) / 3600 by norm_num, Int.floor_int_add]
    have hz : ⌊((mm : ℚ) * 60 + ss) / 3600⌋ = 0 := by
      apply Int.floor_eq_zero_iff.mpr
      constructor
      · exact div_nonneg (by linarith [hss.1]) (by norm_num)
      · rw [div_lt_one (by norm_num)]
        linarith [hss.2]
    rw [hz]
    ring
  have h60 : ⌊((hh : ℚ) * 3600 + (mm : ℚ) * 60 + ss) / 60⌋ = 60 * hh + mm := by
    have hsplit : ((hh : ℚ) * 3600 + (mm : ℚ) * 60 + ss) / 60
        = (((60 * hh + mm : ℤ) : ℚ)) + ss / 60 := by
      push_cast
      field_simp
      ring
    rw [hsplit, Int.floor_int_add]
    have hz : ⌊ss / 60⌋ = 0 := by
      apply Int.floor_eq_zero_iff.mpr
      constructor
      · exact div_nonneg hss.1 (by norm_num)
      · rw [div_lt_one (by norm_num)]
        linarith [hss.2]
    rw [hz]
    ring
  unfold Time.fromReferenceSeconds
  rw [h3600, h60]
  refine congrArg₂ Prod.mk ?_ (congrArg₂ Prod.mk ?_ ?_)
  · rfl
  · push_cast
    ring
  · push_cast
    ring

/-- Function `toReferenceSeconds` of `src/index.ts` applied to a full `DateTime`
record (all fields present, so the `?? 0` defaults do not fire):
day-count times 86400 plus time-of-day seconds. -/
def toReferenceSecondsDT (d : DateTime) : ℚ :=
  Date.toReferenceDaysQ d.year d.month d.day * 86400 +
    Time.toReferenceSeconds d.hours d.minutes d.seconds

/-- Round-trip (spec §8, C4 core): converting back yields the input exactly
(idealized rational arithmetic). -/
theorem toReferenceSeconds_fromReferenceSeconds (s : ℚ) :
    toReferenceSecondsDT (fromReferenceSeconds s) = s := by
  obtain ⟨y, m, d, hh, mm, ss, heq, h1, h2, h3, h4, h5, h6, h7, h8, h9, h10, hrt, hsum⟩ :=
    fromReferenceSeconds_spec s
  rw [heq]
  unfold toReferenceSecondsDT Time.toReferenceSeconds
  dsimp only
  rw [Date.toReferenceDaysQ_intCast, hrt]
  linarith [hsum]

/-- C5 core: `fromReferenceSeconds` is a left inverse of `toReferenceSeconds`
on field-wise valid values. -/
theorem fromReferenceSeconds_toReferenceSeconds (y m d hh mm : ℤ) (ss : ℚ)
    (hm : 1 ≤ m ∧ m ≤ 12) (hd : 1 ≤ d ∧ d ≤ Date.daysInMonth m y)
    (hh' : 0 ≤ hh ∧ hh ≤ 23) (hmm' : 0 ≤ mm ∧ mm ≤ 59) (hss : 0 ≤ ss ∧ ss < 60) :
    fromReferenceSeconds (toReferenceSecondsDT ⟨(y : ℚ), (m : ℚ), (d : ℚ), (hh : ℚ), (mm : ℚ), ss⟩)
      = ⟨(y : ℚ), (m : ℚ), (d : ℚ), (hh : ℚ), (mm : ℚ), ss⟩ := by
  have hhq0 : (0 : ℚ) ≤ (hh : ℚ) := by exact_mod_cast hh'.1
  have hhq1 : (hh : ℚ) ≤ 23 := by exact_mod_cast hh'.2
  have hmmq0 : (0 : ℚ) ≤ (mm : ℚ) := by exact_mod_cast hmm'.1
  have hmmq1 : (mm : ℚ) ≤ 59 := by exact_mod_cast hmm'.2
  have hT0 : 0 ≤ (hh : ℚ) * 3600 + (mm : ℚ) * 60 + ss := by linarith [hss.1]
  have hT1 : (hh : ℚ) * 3600 + (mm : ℚ) * 60 + ss < 86400 := by linarith [hss.2]
  have hs_eq : toReferenceSecondsDT ⟨(y : ℚ), (m : ℚ), (d : ℚ), (hh : ℚ), (mm : ℚ), ss⟩
      = ((Date.toReferenceDays y m d : ℤ) : ℚ) * 86400
        + ((hh : ℚ) * 3600 + (mm : ℚ) * 60 + ss) := by
    unfold toReferenceSecondsDT Time.toReferenceSeconds
    dsimp only
    rw [Date.toReferenceDaysQ_intCast]
  have hfloor : ⌊(((Date.toReferenceDays y m d : ℤ) : ℚ) * 86400
      + ((hh : ℚ) * 3600 + (mm : ℚ) * 60 + ss)) / 86400⌋ = Date.toReferenceDays y m d := by
    have hsplit : (((Date.toReferenceDays y m d : ℤ) : ℚ) * 86400
        + ((hh : ℚ) * 3600 + (mm : ℚ) * 60 + ss)) / 86400
        = ((Date.toReferenceDays y m d : ℤ) : ℚ)
          + ((hh : ℚ) * 3600 + (mm : ℚ) * 60 + ss) / 86400 := by
      field_simp
    rw [hsplit, Int.floor_int_add]
    have hz : ⌊((hh : ℚ) * 3600 + (mm : ℚ) * 60 + ss) / 86400⌋ = 0 := by
      apply Int.floor_eq_zero_iff.mpr
      constructor
      · positivity
      · rw [div_lt_one (by norm_num)]
        exact hT1
    rw [hz]
    ring
  rw [hs_eq]
  unfold fromReferenceSeconds
  dsimp only
  rw [hfloor, Date.fromReferenceDays_toReferenceDays y m d hm hd]
  have hrsid : jsMod (86400 + jsMod ((((Date.toReferenceDays y m d : ℤ) : ℚ) * 86400
      + ((hh : ℚ) * 3600 + (mm : ℚ) * 60 + ss))
      - ((Date.toReferenceDays y m d : ℤ) : ℚ) * 86400) 86400) 86400
      = (hh : ℚ) * 3600 + (mm : ℚ) * 60 + ss := by
    have hx : (((Date.toReferenceDays y m d : ℤ) : ℚ) * 86400
        + ((hh : ℚ) * 3600 + (mm : ℚ) * 60 + ss))
        - ((Date.toReferenceDays y m d : ℤ) : ℚ) * 86400
        = (hh : ℚ) * 3600 + (mm : ℚ) * 60 + ss := by ring
    rw [hx, jsMod_of_mem_Ico (by norm_num) hT0 hT1,
      jsMod_add_self_of_mem_Ico (by norm_num) hT0 hT1]
  rw [hrsid, Time.fromReferenceSeconds_of_valid hh mm ss hh' hmm' hss]

/-- An idealized JavaScript number: an exact rational (`fin`), a signed
infinity (`inf true` is `+Infinity`, `inf false` is `-Infinity`), or `nan`. -/
inductive JsNum where
  | fin (q : ℚ)
  | inf (pos : Bool)
  | nan
deriving DecidableEq, Repr

namespace JsNum

/-- JS `isFinite`. -/
def isFinite : JsNum → Bool
  | fin _ => true
  | _ => false

/-- JS `+` on numbers (NaN propagates; opposite infinities give NaN). -/
def add : JsNum → JsNum → JsNum
  | nan, _ => nan
  | _, nan => nan
  | fin a, fin b => fin (a + b)
  | fin _, inf p => inf p
  | inf p, fin _ => inf p
  | inf p, inf q => if p == q then inf p else nan

/-- JS unary minus. -/
def neg : JsNum → JsNum
  | fin a => fin (-a)
  | inf p => inf (!p)
  | nan => nan

/-- JS `-` on numbers. -/
def sub (x y : JsNum) : JsNum := add x (neg y)

/-- JS `*` on numbers (0 times an infinity is NaN). -/
def mul : JsNum → JsNum → JsNum
  | nan, _ => nan
  | _, nan => nan
  | fin a, fin b => fin (a * b)
  | fin a, inf p => if a = 0 then nan else inf (p == decide (0 < a))
  | inf p, fin a => if a = 0 then nan else inf (p == decide (0 < a))
  | inf p, inf q => inf (p == q)

/-- JS `/` on numbers (division by zero gives a signed infinity, `0/0` NaN,
finite over infinite gives `0`). -/
def div : JsNum → JsNum → JsNum
  | nan, _ => nan
  | _, nan => nan
  | fin a, fin b =>
      if b = 0 then (if a = 0 then nan else inf (decide (0 < a))) else fin (a / b)
  | inf p, fin b => inf (p == decide (0 ≤ b))
  | fin _, inf _ => fin 0
  | inf _, inf _ => nan

/-- JS `Math.floor`. -/
def floor : JsNum → JsNum
  | fin a => fin ((⌊a⌋ : ℤ) : ℚ)
  | inf p => inf p
  | nan => nan

/-- JS `%` on numbers (NaN if the dividend is infinite or the divisor zero;
a finite dividend is returned unchanged for an infinite divisor). -/
def mod : JsNum → JsNum → JsNum
  | nan, _ => nan
  | _, nan => nan
  | inf _, _ => nan
  | fin a, fin b => if b = 0 then nan else fin (jsMod a b)
  | fin a, inf _ => fin a

/-- JS `<` (false whenever an operand is NaN). -/
def lt : JsNum → JsNum → Bool
  | nan, _ => false
  | _, nan => false
  | fin a, fin b => decide (a < b)
  | fin _, inf p => p
  | inf p, fin _ => !p
  | inf p, inf q => !p && q

/-- JS `>`. -/
def gt (x y : JsNum) : Bool := lt y x

/-- JS `<=` (false whenever an operand is NaN). -/
def le : JsNum → JsNum → Bool
  | nan, _ => false
  | _, nan => false
  | fin a, fin b => decide (a ≤ b)
  | fin _, inf p => p
  | inf p, fin _ => !p
  | inf p, inf q => p == q || (!p && q)

/-- JS `>=`. -/
def ge (x y : JsNum) : Bool := le y x

/-- JS `===` on numbers (NaN is not equal to itself). -/
def eqb : JsNum → JsNum → Bool
  | fin a, fin b => a == b
  | inf p, inf q => p == q
  | _, _ => false

/-- JS `Number.isInteger`. -/
def isInteger : JsNum → Bool
  | fin a => a.den == 1
  | _ => false

theorem add_fin_fin (a b : ℚ) : add (fin a) (fin b) = fin (a + b) := rfl

theorem sub_fin_fin (a b : ℚ) : sub (fin a) (fin b) = fin (a - b) := by
  show fin (a + -b) = fin (a - b)
  rw [← sub_eq_add_neg]

theorem mul_fin_fin (a b : ℚ) : mul (fin a) (fin b) = fin (a * b) := rfl

theorem div_fin_fin (a b : ℚ) (hb : b ≠ 0) : div (fin a) (fin b) = fin (a / b) := by
  simp [div, hb]

theorem floor_fin (a : ℚ) : floor (fin a) = fin ((⌊a⌋ : ℤ) : ℚ) := rfl

theorem mod_fin_fin (a b : ℚ) (hb : b ≠ 0) : mod (fin a) (fin b) = fin (jsMod a b) := by
  simp [mod, hb]

theorem add_nan_left (y : JsNum) : add nan y = nan := by cases y <;> rfl

theorem add_nan_right (x : JsNum) : add x nan = nan := by cases x <;> rfl

theorem neg_nan : neg nan = nan := rfl

theorem sub_nan_left (y : JsNum) : sub nan y = nan := by cases y <;> rfl

theorem sub_nan_right (x : JsNum) : sub x nan = nan := by cases x <;> rfl

theorem mul_nan_left (y : JsNum) : mul nan y = nan := by cases y <;> rfl

theorem mul_nan_right (x : JsNum) : mul x nan = nan := by cases x <;> rfl

theorem div_nan_left (y : JsNum) : div nan y = nan := by cases y <;> rfl

theorem div_nan_right (x : JsNum) : div x nan = nan := by cases x <;> rfl

theorem floor_nan : floor nan = nan := rfl

theorem add_isFinite {x y : JsNum} (h : (add x y).isFinite = true) :
    x.isFinite = true ∧ y.isFinite = true := by
  cases x <;> cases y <;> simp_all [add, isFinite] <;> split_ifs at h <;> simp_all [isFinite]

theorem neg_isFinite {x : JsNum} (h : (neg x).isFinite = true) : x.isFinite = true := by
  cases x <;> simp_all [neg, isFinite]

theorem sub_isFinite {x y : JsNum} (h : (sub x y).isFinite = true) :
    x.isFinite = true ∧ y.isFinite = true := by
  obtain ⟨h1, h2⟩ := add_isFinite h
  exact ⟨h1, neg_isFinite h2⟩

theorem mul_isFinite {x y : JsNum} (h : (mul x y).isFinite = true) :
    x.isFinite = true ∧ y.isFinite = true := by
  cases x <;> cases y <;> simp_all [mul, isFinite] <;> split_ifs at h <;> simp_all [isFinite]

theorem floor_isFinite {x : JsNum} (h : (floor x).isFinite = true) : x.isFinite = true := by
  cases x <;> simp_all [floor, isFinite]

theorem div_fin_isFinite {x : JsNum} {b : ℚ} (h : (div x (fin b)).isFinite = true) :
    x.isFinite = true := by
  cases x <;> simp_all [div, isFinite]

theorem isFinite_iff_exists_fin (x : JsNum) : x.isFinite = true ↔ ∃ q, x = fin q := by
  cases x <;> simp [isFinite]

end JsNum

/-- The `DateTimeOptions` record of the library: `minutes` and `seconds` are
optional (defaulting to `0` via `?? 0` at each use site). -/
structure DateTimeOptions where
  year : JsNum
  month : JsNum
  day : JsNum
  hours : JsNum
  minutes : Option JsNum
  seconds : Option JsNum
deriving DecidableEq, Repr

/-- Every `DateTime` may be used as a `DateTimeOptions` (all fields present). -/
def DateTime.toOptions (d : DateTime) : DateTimeOptions :=
  ⟨.fin d.year, .fin d.month, .fin d.day, .fin d.hours,
   some (.fin d.minutes), some (.fin d.seconds)⟩

namespace Date

/-- Modelled from the spec: JS-number-level leap-year test (non-finite years
fail the remainder-is-zero tests, hence are not leap years). -/
def isLeapYearJs (y : JsNum) : Bool :=
  match y with
  | JsNum.fin q => isLeapYearQ q
  | _ => false

theorem isLeapYearJs_fin (q : ℚ) : isLeapYearJs (JsNum.fin q) = isLeapYearQ q := rfl

/-- Modelled from the spec: JS-number-level month-offset table (a non-finite
month falls through every branch of the comparison chain to the last entry). -/
def daysBeforeMonthJs (m : JsNum) (leap : Bool) : JsNum :=
  match m with
  | JsNum.fin q => JsNum.fin (daysBeforeMonthQ q leap)
  | _ => JsNum.fin (334 + if leap then 1 else 0)

/-- Modelled from the spec: JS-number-level days-in-month query (a non-finite
month falls through the comparison chain to the default 31). -/
def daysInMonthQ (m : ℚ) (leap : Bool) : ℚ :=
  if m = 2 then (if leap then 29 else 28)
  else if m = 4 ∨ m = 6 ∨ m = 9 ∨ m = 11 then 30
  else 31

/-- Modelled from the spec: the `daysInMonth` export of
`@softwareventures/date` at the JS-number level. -/
def daysInMonthJs (m y : JsNum) : JsNum :=
  match m with
  | JsNum.fin q => JsNum.fin (daysInMonthQ q (isLeapYearJs y))
  | _ => JsNum.fin 31

theorem daysInMonthQ_intCast (m : ℤ) (leap : Bool) :
    daysInMonthQ (m : ℚ) leap = ((monthLength m leap : ℤ) : ℚ) := by
  unfold daysInMonthQ monthLength
  by_cases h2 : m = 2
  · subst h2
    rcases leap with _ | _ <;> norm_num
  · have h2q : ¬((m : ℚ) = 2) := by exact_mod_cast h2
    by_cases h4 : m = 4 ∨ m = 6 ∨ m = 9 ∨ m = 11
    · have h4q : ((m : ℚ) = 4 ∨ (m : ℚ) = 6 ∨ (m : ℚ) = 9 ∨ (m : ℚ) = 11) := by
        rcases h4 with h | h | h | h <;> subst h <;> norm_num
      rw [if_neg h2q, if_pos h4q, if_neg h2, if_pos h4]
      norm_num
    · have h4q : ¬((m : ℚ) = 4 ∨ (m : ℚ) = 6 ∨ (m : ℚ) = 9 ∨ (m : ℚ) = 11) := by
        push_neg at h4 ⊢
        exact ⟨by exact_mod_cast h4.1, by exact_mod_cast h4.2.1,
          by exact_mod_cast h4.2.2.1, by exact_mod_cast h4.2.2.2⟩
      rw [if_neg h2q, if_neg h4q, if_neg h2, if_neg h4]
      norm_num

/-- Modelled from the spec: the external calendar-to-day-count conversion at
the JS-number level (the arithmetic of `toReferenceDaysQ` carried out with
JS-number operations, so that non-finite inputs propagate). -/
def toReferenceDaysJs (y m d : JsNum) : JsNum :=
  let m1 := m.sub (JsNum.fin 1)
  let carry := (m1.div (JsNum.fin 12)).floor
  let y2 := y.add carry
  let m2 := (m1.sub ((JsNum.fin 12).mul carry)).add (JsNum.fin 1)
  let y1 := y2.sub (JsNum.fin 1)
  let dby := ((((JsNum.fin 365).mul y1).add ((y1.div (JsNum.fin 4)).floor)).sub
      ((y1.div (JsNum.fin 100)).floor)).add ((y1.div (JsNum.fin 400)).floor)
  (dby.add (daysBeforeMonthJs m2 (isLeapYearJs y2))).add (d.sub (JsNum.fin 1))

theorem div_fin_4 (a : ℚ) : (JsNum.fin a).div (JsNum.fin 4) = JsNum.fin (a / 4) :=
  JsNum.div_fin_fin a 4 (by norm_num)

theorem div_fin_12 (a : ℚ) : (JsNum.fin a).div (JsNum.fin 12) = JsNum.fin (a / 12) :=
  JsNum.div_fin_fin a 12 (by norm_num)

theorem div_fin_100 (a : ℚ) : (JsNum.fin a).div (JsNum.fin 100) = JsNum.fin (a / 100) :=
  JsNum.div_fin_fin a 100 (by norm_num)

theorem div_fin_400 (a : ℚ) : (JsNum.fin a).div (JsNum.fin 400) = JsNum.fin (a / 400) :=
  JsNum.div_fin_fin a 400 (by norm_num)

theorem toReferenceDaysJs_fin (y m d : ℚ) :
    toReferenceDaysJs (.fin y) (.fin m) (.fin d) = .fin (toReferenceDaysQ y m d) := by
  unfold toReferenceDaysJs toReferenceDaysQ daysBeforeYearQ
  dsimp only
  simp only [JsNum.sub_fin_fin, JsNum.add_fin_fin, JsNum.mul_fin_fin, JsNum.floor_fin,
    div_fin_4, div_fin_12, div_fin_100, div_fin_400, isLeapYearJs_fin, daysBeforeMonthJs]

theorem toReferenceDaysJs_isFinite {y m d : JsNum}
    (h : (toReferenceDaysJs y m d).isFinite = true) :
    y.isFinite = true ∧ m.isFinite = true ∧ d.isFinite = true := by
  unfold toReferenceDaysJs at h
  dsimp only at h
  obtain ⟨h1, h2⟩ := JsNum.add_isFinite h
  have hdfin : d.isFinite = true := (JsNum.sub_isFinite h2).1
  obtain ⟨h3, _⟩ := JsNum.add_isFinite h1
  obtain ⟨h5, _⟩ := JsNum.add_isFinite h3
  obtain ⟨h6, _⟩ := JsNum.sub_isFinite h5
  obtain ⟨h7, _⟩ := JsNum.add_isFinite h6
  have hy1 : ((y.add ((m.sub (JsNum.fin 1)).div (JsNum.fin 12)).floor).sub
      (JsNum.fin 1)).isFinite = true := (JsNum.mul_isFinite h7).2
  obtain ⟨hy2, _⟩ := JsNum.sub_isFinite hy1
  obtain ⟨hyfin, hcarry⟩ := JsNum.add_isFinite hy2
  have hmfin : m.isFinite = true :=
    (JsNum.sub_isFinite (JsNum.div_fin_isFinite (JsNum.floor_isFinite hcarry))).1
  exact ⟨hyfin, hmfin, hdfin⟩

theorem toReferenceDaysJs_nan_year (m d : JsNum) :
    toReferenceDaysJs JsNum.nan m d = JsNum.nan := by
  unfold toReferenceDaysJs
  dsimp only
  simp only [JsNum.add_nan_left, JsNum.add_nan_right, JsNum.sub_nan_left,
    JsNum.sub_nan_right, JsNum.mul_nan_left, JsNum.mul_nan_right, JsNum.div_nan_left,
    JsNum.div_nan_right, JsNum.floor_nan]

theorem toReferenceDaysJs_nan_month (y d : JsNum) :
    toReferenceDaysJs y JsNum.nan d = JsNum.nan := by
  unfold toReferenceDaysJs
  dsimp only
  simp only [JsNum.add_nan_left, JsNum.add_nan_right, JsNum.sub_nan_left,
    JsNum.sub_nan_right, JsNum.mul_nan_left, JsNum.mul_nan_right, JsNum.div_nan_left,
    JsNum.div_nan_right, JsNum.floor_nan]

theorem toReferenceDaysJs_nan_day (y m : JsNum) :
    toReferenceDaysJs y m JsNum.nan = JsNum.nan := by
  unfold toReferenceDaysJs
  dsimp only
  simp only [JsNum.add_nan_left, JsNum.add_nan_right, JsNum.sub_nan_left,
    JsNum.sub_nan_right, JsNum.mul_nan_left, JsNum.mul_nan_right, JsNum.div_nan_left,
    JsNum.div_nan_right, JsNum.floor_nan]

end Date

namespace Time

/-- Modelled from the spec: the external time-of-day-to-seconds conversion at
the JS-number level: `hours * 3600 + minutes * 60 + seconds`. -/
def toReferenceSecondsJs (hours minutes seconds : JsNum) : JsNum :=
  ((hours.mul (JsNum.fin 3600)).add (minutes.mul (JsNum.fin 60))).add seconds

theorem toReferenceSecondsJs_fin (h m s : ℚ) :
    toReferenceSecondsJs (.fin h) (.fin m) (.fin s) = .fin (toReferenceSeconds h m s) := by
  unfold toReferenceSecondsJs toReferenceSeconds
  rw [JsNum.mul_fin_fin, JsNum.mul_fin_fin, JsNum.add_fin_fin, JsNum.add_fin_fin]

theorem toReferenceSecondsJs_isFinite {h m s : JsNum}
    (hf : (toReferenceSecondsJs h m s).isFinite = true) :
    h.isFinite = true ∧ m.isFinite = true ∧ s.isFinite = true := by
  unfold toReferenceSecondsJs at hf
  obtain ⟨h1, h2⟩ := JsNum.add_isFinite hf
  obtain ⟨h3, h4⟩ := JsNum.add_isFinite h1
  exact ⟨(JsNum.mul_isFinite h3).1, (JsNum.mul_isFinite h4).1, h2⟩

end Time

/-- Function `toReferenceSeconds` of `src/index.ts`:
`date.toReferenceDays({year, month, day}) * 86400 +
time.toReferenceSeconds({hours, minutes: minutes ?? 0, seconds: seconds ?? 0})`. -/
def toReferenceSeconds (o : DateTimeOptions) : JsNum :=
  ((Date.toReferenceDaysJs o.year o.month o.day).mul (JsNum.fin 86400)).add
    (Time.toReferenceSecondsJs o.hours (o.minutes.getD (JsNum.fin 0))
      (o.seconds.getD (JsNum.fin 0)))

theorem toReferenceSeconds_eq_fin (o : DateTimeOptions) (y m d h mi s : ℚ)
    (hy : o.year = .fin y) (hm : o.month = .fin m) (hd : o.day = .fin d)
    (hh : o.hours = .fin h) (hmi : o.minutes.getD (.fin 0) = .fin mi)
    (hs : o.seconds.getD (.fin 0) = .fin s) :
    toReferenceSeconds o = .fin (toReferenceSecondsDT ⟨y, m, d, h, mi, s⟩) := by
  unfold toReferenceSeconds toReferenceSecondsDT
  rw [hy, hm, hd, hh, hmi, hs, Date.toReferenceDaysJs_fin, Time.toReferenceSecondsJs_fin,
    JsNum.mul_fin_fin, JsNum.add_fin_fin]

theorem toReferenceSeconds_toOptions (d : DateTime) :
    toReferenceSeconds d.toOptions = .fin (toReferenceSecondsDT d) :=
  toReferenceSeconds_eq_fin d.toOptions d.year d.month d.day d.hours d.minutes d.seconds
    rfl rfl rfl rfl rfl rfl

theorem toReferenceSeconds_isFinite {o : DateTimeOptions}
    (h : (toReferenceSeconds o).isFinite = true) :
    o.year.isFinite = true ∧ o.month.isFinite = true ∧ o.day.isFinite = true ∧
    o.hours.isFinite = true ∧ (o.minutes.getD (.fin 0)).isFinite = true ∧
    (o.seconds.getD (.fin 0)).isFinite = true := by
  unfold toReferenceSeconds at h
  obtain ⟨h1, h2⟩ := JsNum.add_isFinite h
  obtain ⟨hy, hm, hd⟩ := Date.toReferenceDaysJs_isFinite (JsNum.mul_isFinite h1).1
  obtain ⟨hh, hmi, hs⟩ := Time.toReferenceSecondsJs_isFinite h2
  exact ⟨hy, hm, hd, hh, hmi, hs⟩

theorem toReferenceSeconds_nan {o : DateTimeOptions}
    (h : o.year = .nan ∨ o.month = .nan ∨ o.day = .nan ∨ o.hours = .nan ∨
      o.minutes.getD (.fin 0) = .nan ∨ o.seconds.getD (.fin 0) = .nan) :
    toReferenceSeconds o = .nan := by
  unfold toReferenceSeconds Time.toReferenceSecondsJs
  rcases h with h | h | h | h | h | h <;> rw [h] <;>
    simp only [Date.toReferenceDaysJs_nan_year, Date.toReferenceDaysJs_nan_month,
      Date.toReferenceDaysJs_nan_day, JsNum.add_nan_left, JsNum.add_nan_right,
      JsNum.mul_nan_left, JsNum.mul_nan_right]

/-- Function `fromReferenceSeconds` of `src/index.ts` including its non-finite guard
(`throw new Error("Invalid date-time")`). -/
def fromReferenceSecondsChecked (referenceSeconds : JsNum) : Except String DateTime :=
  match referenceSeconds with
  | .fin q => .ok (fromReferenceSeconds q)
  | _ => .error "Invalid date-time"

/-- Function `dateTime` of `src/index.ts` (aliased as `normalize` and
`normalizeDateTime`): `fromReferenceSeconds(toReferenceSeconds(options))`. -/
def dateTime (options : DateTimeOptions) : Except String DateTime :=
  fromReferenceSecondsChecked (toReferenceSeconds options)

/-- Function `isIntegerInRange(value, min, max)` of the `is-integer-in-range` package:
`isInteger(value) && value >= min && value <= max`. -/
def isIntegerInRange (value lo hi : JsNum) : Bool :=
  value.isInteger && value.ge lo && value.le hi

/-- Function `isValid` of `src/index.ts` (the constant type-tag conjunct is omitted
from the model; `JANUARY = 1`, `DECEMBER = 12`). -/
def isValid (o : DateTimeOptions) : Bool :=
  o.year.isInteger &&
  isIntegerInRange o.month (.fin 1) (.fin 12) &&
  isIntegerInRange o.day (.fin 1) (Date.daysInMonthJs o.month o.year) &&
  isIntegerInRange o.hours (.fin 0) (.fin 23) &&
  isIntegerInRange (o.minutes.getD (.fin 0)) (.fin 0) (.fin 59) &&
  (o.seconds.getD (.fin 0)).ge (.fin 0) &&
  (o.seconds.getD (.fin 0)).lt (.fin 60)

/-- Function `equal` of `src/index.ts`:
`toReferenceSeconds(a) === toReferenceSeconds(b)`. -/
def equal (a b : DateTimeOptions) : Bool :=
  (toReferenceSeconds a).eqb (toReferenceSeconds b)

/-- Function `notEqual` of `src/index.ts`:
`toReferenceSeconds(a) !== toReferenceSeconds(b)`. -/
def notEqual (a b : DateTimeOptions) : Bool :=
  !(toReferenceSeconds a).eqb (toReferenceSeconds b)

/-- The `Comparison` enumeration of `@softwareventures/ordered`. -/
inductive Comparison where
  | before
  | equal
  | after
  | undefined
deriving DecidableEq, Repr

/-- Function `compare` of `src/index.ts` (three-way comparison on reference seconds,
with a fourth `undefined` outcome when no comparison evaluates to true). -/
def compare (a b : DateTimeOptions) : Comparison :=
  let ad := toReferenceSeconds a
  let bd := toReferenceSeconds b
  if ad.lt bd then Comparison.before
  else if ad.gt bd then Comparison.after
  else if ad.eqb bd then Comparison.equal
  else Comparison.undefined

/-- Function `before` of `src/index.ts`. -/
def before (a b : DateTimeOptions) : Bool :=
  (toReferenceSeconds a).lt (toReferenceSeconds b)

/-- Function `beforeOrEqual` of `src/index.ts`. -/
def beforeOrEqual (a b : DateTimeOptions) : Bool :=
  (toReferenceSeconds a).le (toReferenceSeconds b)

/-- Function `after` of `src/index.ts`. -/
def after (a b : DateTimeOptions) : Bool :=
  (toReferenceSeconds a).gt (toReferenceSeconds b)

/-- Function `afterOrEqual` of `src/index.ts`. -/
def afterOrEqual (a b : DateTimeOptions) : Bool :=
  (toReferenceSeconds a).ge (toReferenceSeconds b)

/-- Function `earliest` of `src/index.ts`: `after(a, b) ? b : a`. -/
def earliest (a b : DateTimeOptions) : DateTimeOptions :=
  if after a b then b else a

/-- Function `latest` of `src/index.ts`: `before(a, b) ? b : a`. -/
def latest (a b : DateTimeOptions) : DateTimeOptions :=
  if before a b then b else a

/-- A reading of the system clock (`new JsDate()`), as observed through the
accessor methods the library calls.  `month0` is the 0-based month returned
by `getMonth`/`getUTCMonth`, `dayOfMonth` the 1-based day of the month
returned by `getDate`/`getUTCDate`, and `dayOfWeek` the 0-6 day of the week
returned by `getDay`. -/
structure ClockReading where
  fullYear : ℤ
  month0 : ℤ
  dayOfMonth : ℤ
  dayOfWeek : ℤ
  hours : ℤ
  minutes : ℤ
  wholeSeconds : ℤ
  milliseconds : ℤ
deriving DecidableEq, Repr

/-- Function `nowUtc` of `src/index.ts` applied to a clock reading:
`{year: getUTCFullYear(), month: getUTCMonth() + 1, day: getUTCDate(),
hours: getUTCHours(), minutes: getUTCMinutes(),
seconds: getUTCSeconds() + 0.001 * getUTCMilliseconds()}`. -/
def nowUtc (c : ClockReading) : DateTime :=
  ⟨(c.fullYear : ℚ), (c.month0 : ℚ) + 1, (c.dayOfMonth : ℚ), (c.hours : ℚ),
   (c.minutes : ℚ), (c.wholeSeconds : ℚ) + 0.001 * (c.milliseconds : ℚ)⟩

/-- Function `nowDeviceLocal` of `src/index.ts` applied to a clock reading, exactly as
written in the source: `month: now.getMonth()` (0-based, no `+ 1`),
`day: now.getDay()` (day of the week), `minutes: now.getHours()`. -/
def nowDeviceLocal (c : ClockReading) : DateTime :=
  ⟨(c.fullYear : ℚ), (c.month0 : ℚ), (c.dayOfWeek : ℚ), (c.hours : ℚ),
   (c.hours : ℚ), (c.wholeSeconds : ℚ) + 0.001 * (c.milliseconds : ℚ)⟩

namespace Iso8601

/-- The ASCII whitespace characters matched by the regex class `\s` that can
occur here. -/
def isSpace (c : Char) : Bool :=
  c = ' ' || c = '\t' || c = '\n' || c = '\r' || c = '\x0b' || c = '\x0c'

def digitVal (c : Char) : ℤ := (c.toNat : ℤ) - 48

/-- Model of `parseInt` on a matched digit string (idealized, exact). -/
def digitsToInt (ds : List Char) : ℤ :=
  ds.foldl (fun acc c => acc * 10 + digitVal c) 0

/-- Value of the digits after the decimal point in `parseFloat`. -/
def fracValue (ds : List Char) : ℚ :=
  ds.foldr (fun c acc => (digitVal c : ℚ) / 10 + acc / 10) 0

/-- Two mandatory digits (`\d{2}`). -/
def take2 : List Char → Option (ℤ × List Char)
  | c1 :: c2 :: rest =>
      if c1.isDigit && c2.isDigit then some (10 * digitVal c1 + digitVal c2, rest) else none
  | _ => none

/-- The optional literal separator `-?` (and likewise `:?`): consuming it is
forced whenever it is present, because a digit must follow. -/
def skipSep (sep : Char) : List Char → List Char
  | c :: rest => if c = sep then rest else c :: rest
  | [] => []

/-- The date/time delimiter `(?:T|\s+)` (case-insensitive `T`, or a maximal
whitespace run, which is forced because a digit must follow). -/
def parseDelim : List Char → Option (List Char)
  | c :: rest =>
      if c = 'T' ∨ c = 't' then some rest
      else if isSpace c then some (rest.dropWhile isSpace)
      else none
  | [] => none

/-- The seconds group `(\d{2}(?:\.\d*)?)`, already passed through
`parseFloat(text.replace(",", "."))` — the replace is the identity here since
the regex admits only `.` in this group. -/
def parseSeconds (l : List Char) : Option (ℚ × List Char) :=
  match take2 l with
  | none => none
  | some (n, rest) =>
      match rest with
      | '.' :: rest2 =>
          some ((n : ℚ) + fracValue (rest2.takeWhile Char.isDigit),
            rest2.dropWhile Char.isDigit)
      | _ => some ((n : ℚ), rest)

/-- The trailing optional minutes/seconds groups
`(?::?(\d{2})(?::?(\d{2}(?:\.\d*)?))?)?$`. -/
def parseTimeTail (l : List Char) : Option (Option ℤ × Option ℚ) :=
  if l.isEmpty then some (none, none)
  else
    match take2 (skipSep ':' l) with
    | none => none
    | some (mi, rest) =>
        if rest.isEmpty then some (some mi, none)
        else
          match parseSeconds (skipSep ':' rest) with
          | none => none
          | some (sv, rest2) => if rest2.isEmpty then some (some mi, some sv) else none

/-- Everything after the year: `-?(\d{2})-?(\d{2})(?:T|\s+)(\d{2})` and the
optional time tail. -/
def parseDateTail (l : List Char) : Option (ℤ × ℤ × ℤ × Option ℤ × Option ℚ) :=
  match take2 (skipSep '-' l) with
  | none => none
  | some (mo, r1) =>
      match take2 (skipSep '-' r1) with
      | none => none
      | some (dy, r2) =>
          match parseDelim r2 with
          | none => none
          | some r3 =>
              match take2 r3 with
              | none => none
              | some (hh, r4) =>
                  match parseTimeTail r4 with
                  | none => none
                  | some (mi, se) => some (mo, dy, hh, mi, se)

/-- Backtracking over the greedy year group `\d{4,}`: try the longest digit
prefix as the year first, then shorter ones down to four digits.  `fuel` is a
structural-recursion bound; `ds.length` suffices. -/
def parseWithYear (sign : ℤ) : Nat → List Char → List Char →
    Option (ℤ × ℤ × ℤ × ℤ × Option ℤ × Option ℚ)
  | 0, _, _ => none
  | fuel + 1, ds, suffix =>
      if ds.length < 4 then none
      else
        match parseDateTail suffix with
        | some (mo, dy, hh, mi, se) => some (sign * digitsToInt ds, mo, dy, hh, mi, se)
        | none => parseWithYear sign fuel ds.dropLast (ds.getLastD 'x' :: suffix)

end Iso8601

/-- The `regex.exec` phase of `parseIso8601`: match the anchored ISO-8601
regex (backtracking only over the year length; every other regex position is
forced) and return the captured numeric fields, already put through
`parseInt`/`parseFloat`. -/
def execIso8601 (text : String) : Option (ℤ × ℤ × ℤ × ℤ × Option ℤ × Option ℚ) :=
  let cs := text.data
  let signAndRest : ℤ × List Char :=
    match cs with
    | '+' :: rest => (1, rest)
    | '-' :: rest => (-1, rest)
    | _ => (1, cs)
  let digs := signAndRest.2.takeWhile Char.isDigit
  let rest := signAndRest.2.dropWhile Char.isDigit
  Iso8601.parseWithYear signAndRest.1 (digs.length + 1) digs rest

/-- Function `parseIso8601` of `src/index.ts`: run the regex; on structural mismatch
return `null` (modelled as `.ok none`), otherwise feed the captured fields
(minutes and seconds defaulted to 0 by `?? 0`) through `dateTime`.  The
`Except` layer records whether `dateTime` threw. -/
def parseIso8601 (text : String) : Except String (Option DateTime) :=
  match execIso8601 text with
  | none => .ok none
  | some (yr, mo, dy, hh, mi, se) =>
      (dateTime ⟨.fin (yr : ℚ), .fin (mo : ℚ), .fin (dy : ℚ), .fin (hh : ℚ),
        some (.fin ((mi.getD 0 : ℤ) : ℚ)), some (.fin (se.getD 0))⟩).map some

theorem isValid_intCast_fields (y m d hh mm : ℤ) (ss : ℚ)
    (h1 : 1 ≤ m) (h2 : m ≤ 12) (h3 : 1 ≤ d) (h4 : d ≤ Date.daysInMonth m y)
    (h5 : 0 ≤ hh) (h6 : hh ≤ 23) (h7 : 0 ≤ mm) (h8 : mm ≤ 59)
    (h9 : 0 ≤ ss) (h10 : ss < 60) :
    isValid (DateTime.toOptions ⟨(y : ℚ), (m : ℚ), (d : ℚ), (hh : ℚ), (mm : ℚ), ss⟩)
      = true := by
  unfold isValid isIntegerInRange DateTime.toOptions
  dsimp only
  simp only [JsNum.isInteger, JsNum.ge, JsNum.le, JsNum.lt, Option.getD,
    Date.daysInMonthJs, Date.isLeapYearJs_fin, Date.isLeapYearQ_intCast,
    Date.daysInMonthQ_intCast, Bool.and_eq_true, beq_iff_eq, decide_eq_true_eq,
    Rat.den_intCast]
  refine ⟨⟨⟨⟨⟨⟨trivial, ⟨trivial, by exact_mod_cast h1⟩, by exact_mod_cast h2⟩,
    ⟨trivial, by exact_mod_cast h3⟩, ?_⟩,
    ⟨trivial, by exact_mod_cast h5⟩, by exact_mod_cast h6⟩,
    ⟨trivial, by exact_mod_cast h7⟩, by exact_mod_cast h8⟩, h9⟩, h10⟩
  have h4' : d ≤ Date.monthLength m (Date.isLeapYear y) := h4
  exact_mod_cast h4'

theorem isValid_elim {d : DateTime} (h : isValid (DateTime.toOptions d) = true) :
    ∃ (y m dd hh mm : ℤ), d.year = (y : ℚ) ∧ d.month = (m : ℚ) ∧ d.day = (dd : ℚ) ∧
      d.hours = (hh : ℚ) ∧ d.minutes = (mm : ℚ) ∧
      1 ≤ m ∧ m ≤ 12 ∧ 1 ≤ dd ∧ dd ≤ Date.daysInMonth m y ∧ 0 ≤ hh ∧ hh ≤ 23 ∧
      0 ≤ mm ∧ mm ≤ 59 ∧ 0 ≤ d.seconds ∧ d.seconds < 60 := by
  unfold isValid isIntegerInRange DateTime.toOptions at h
  dsimp only at h
  simp only [JsNum.isInteger, JsNum.ge, JsNum.le, JsNum.lt, Option.getD,
    Date.daysInMonthJs, Date.isLeapYearJs_fin, Bool.and_eq_true, beq_iff_eq,
    decide_eq_true_eq] at h
  obtain ⟨⟨⟨⟨⟨⟨hy, ⟨⟨hmden, hm1⟩, hm2⟩⟩, ⟨⟨hdden, hd1⟩, hd2⟩⟩, ⟨⟨hhden, hh1⟩, hh2⟩⟩,
    ⟨⟨hmiden, hmi1⟩, hmi2⟩⟩, hs1⟩, hs2⟩ := h
  have hyq : d.year = ((d.year.num : ℤ) : ℚ) := ((Rat.den_eq_one_iff d.year).mp hy).symm
  have hmq : d.month = ((d.month.num : ℤ) : ℚ) := ((Rat.den_eq_one_iff d.month).mp hmden).symm
  have hdq : d.day = ((d.day.num : ℤ) : ℚ) := ((Rat.den_eq_one_iff d.day).mp hdden).symm
  have hhq : d.hours = ((d.hours.num : ℤ) : ℚ) := ((Rat.den_eq_one_iff d.hours).mp hhden).symm
  have hmiq : d.minutes = ((d.minutes.num : ℤ) : ℚ) :=
    ((Rat.den_eq_one_iff d.minutes).mp hmiden).symm
  refine ⟨d.year.num, d.month.num, d.day.num, d.hours.num, d.minutes.num,
    hyq, hmq, hdq, hhq, hmiq, ?_, ?_, ?_, ?_, ?_, ?_, ?_, ?_, hs1, hs2⟩
  · rw [hmq] at hm1
    exact_mod_cast hm1
  · rw [hmq] at hm2
    exact_mod_cast hm2
  · rw [hdq] at hd1
    exact_mod_cast hd1
  · rw [hmq, hyq] at hd2
    rw [Date.isLeapYearQ_intCast, Date.daysInMonthQ_intCast] at hd2
    rw [hdq] at hd2
    show d.day.num ≤ Date.monthLength d.month.num (Date.isLeapYear d.year.num)
    exact_mod_cast hd2
  · rw [hhq] at hh1
    exact_mod_cast hh1
  · rw [hhq] at hh2
    exact_mod_cast hh2
  · rw [hmiq] at hmi1
    exact_mod_cast hmi1
  · rw [hmiq] at hmi2
    exact_mod_cast hmi2

/-- C3: for every finite reference-second count `s`, the `DateTime` produced
by `fromReferenceSeconds` has integer year/month/day/hours/minutes within
their valid ranges and seconds in `[0, 60)`; equivalently it satisfies
`isValid`. -/
theorem C3_fromReferenceSeconds_isValid (s : ℚ) :
    isValid (DateTime.toOptions (fromReferenceSeconds s)) = true := by
  obtain ⟨y, m, d, hh, mm, ss, heq, h1, h2, h3, h4, h5, h6, h7, h8, h9, h10, hrt, hsum⟩ :=
    fromReferenceSeconds_spec s
  rw [heq]
  exact isValid_intCast_fields y m d hh mm ss h1 h2 h3 h4 h5 h6 h7 h8 h9 h10

/-- C4: `toReferenceSeconds(fromReferenceSeconds(s)) = s` for every finite
`s` — exactly, in the idealized rational model of JS numbers. -/
theorem C4_roundtrip (s : ℚ) :
    toReferenceSeconds (DateTime.toOptions (fromReferenceSeconds s)) = .fin s := by
  rw [toReferenceSeconds_toOptions, toReferenceSeconds_fromReferenceSeconds]

/-- C5: normalization (`dateTime` = `normalize`) is the identity on valid
`DateTime` values: it succeeds and returns a field-wise equal record. -/
theorem C5_normalize_idempotent (d : DateTime) (h : isValid (DateTime.toOptions d) = true) :
    dateTime (DateTime.toOptions d) = .ok d := by
  obtain ⟨y, m, dd, hh, mm, hyq, hmq, hdq, hhq, hmiq, h1, h2, h3, h4, h5, h6, h7, h8,
    h9, h10⟩ := isValid_elim h
  have hde : d = ⟨(y : ℚ), (m : ℚ), (dd : ℚ), (hh : ℚ), (mm : ℚ), d.seconds⟩ := by
    cases d with
    | mk a b c e f g =>
      dsimp only at hyq hmq hdq hhq hmiq ⊢
      rw [hyq, hmq, hdq, hhq, hmiq]
  rw [hde]
  unfold dateTime
  rw [toReferenceSeconds_toOptions]
  show Except.ok (fromReferenceSeconds (toReferenceSecondsDT
    ⟨(y : ℚ), (m : ℚ), (dd : ℚ), (hh : ℚ), (mm : ℚ), d.seconds⟩)) = _
  rw [fromReferenceSeconds_toReferenceSeconds y m dd hh mm d.seconds ⟨h1, h2⟩ ⟨h3, h4⟩
    ⟨h5, h6⟩ ⟨h7, h8⟩ ⟨h9, h10⟩]

/-- Witness for C5 at a concrete valid value. -/
theorem isValid_witness_input :
    isValid (DateTime.toOptions ⟨2024, 1, 26, 11, 57, 47 / 2⟩) = true := by
  refine isValid_intCast_fields 2024 1 26 11 57 (47 / 2) (by norm_num) (by norm_num)
    (by norm_num) (by norm_num [Date.daysInMonth, Date.monthLength]) (by norm_num)
    (by norm_num) (by norm_num) (by norm_num) (by norm_num) (by norm_num)

/-- Witness for C5 at a concrete valid value. -/
theorem C5_witness :
    dateTime (DateTime.toOptions ⟨2024, 1, 26, 11, 57, 47 / 2⟩)
      = .ok ⟨2024, 1, 26, 11, 57, 47 / 2⟩ :=
  C5_normalize_idempotent ⟨2024, 1, 26, 11, 57, 47 / 2⟩ isValid_witness_input

/-- C6: on finite reference-second values the comparison family is total:
exactly one of `before`/`equal`/`after` holds, `compare` never yields
`undefined`, `compare` is antisymmetric, and strict ordering is transitive. -/
theorem C6_comparison_total (a b c : DateTimeOptions) (qa qb qc : ℚ)
    (ha : toReferenceSeconds a = .fin qa) (hb : toReferenceSeconds b = .fin qb)
    (hc : toReferenceSeconds c = .fin qc) :
    (before a b = true ∨ equal a b = true ∨ after a b = true) ∧
    ¬(before a b = true ∧ equal a b = true) ∧
    ¬(before a b = true ∧ after a b = true) ∧
    ¬(equal a b = true ∧ after a b = true) ∧
    compare a b ≠ Comparison.undefined ∧
    (compare a b = Comparison.before ↔ compare b a = Comparison.after) ∧
    ((compare a b = Comparison.before ∧ compare b c = Comparison.before) →
      compare a c = Comparison.before) := by
  unfold before equal after compare
  rw [ha, hb, hc]
  dsimp only
  simp only [JsNum.lt, JsNum.gt, JsNum.eqb, beq_iff_eq, decide_eq_true_eq]
  refine ⟨lt_trichotomy qa qb, ?_, ?_, ?_, ?_, ?_, ?_⟩
  · rintro ⟨h1, h2⟩
    rw [h2] at h1
    exact lt_irrefl _ h1
  · rintro ⟨h1, h2⟩
    exact lt_asymm h1 h2
  · rintro ⟨h1, h2⟩
    rw [h1] at h2
    exact lt_irrefl _ h2
  · rcases lt_trichotomy qa qb with h | h | h
    · simp [h]
    · simp [h, lt_irrefl]
    · simp [h, lt_asymm h]
  · rcases lt_trichotomy qa qb with h | h | h
    · simp [h, lt_asymm h]
    · simp [h, lt_irrefl]
    · simp [h, lt_asymm h]
  · rintro ⟨h1, h2⟩
    by_cases hab : qa < qb
    · by_cases hbc : qb < qc
      · simp [lt_trans hab hbc]
      · rw [if_neg hbc] at h2
        split_ifs at h2 <;> simp_all
    · rw [if_neg hab] at h1
      split_ifs at h1 <;> simp_all
  
/-- Witness for C6 at concrete values one day apart. -/
theorem C6_witness :
    (before (DateTime.toOptions ⟨2024, 1, 1, 0, 0, 0⟩)
        (DateTime.toOptions ⟨2024, 1, 2, 0, 0, 0⟩) = true ∨
      equal (DateTime.toOptions ⟨2024, 1, 1, 0, 0, 0⟩)
        (DateTime.toOptions ⟨2024, 1, 2, 0, 0, 0⟩) = true ∨
      after (DateTime.toOptions ⟨2024, 1, 1, 0, 0, 0⟩)
        (DateTime.toOptions ⟨2024, 1, 2, 0, 0, 0⟩) = true) ∧
    ¬(before (DateTime.toOptions ⟨2024, 1, 1, 0, 0, 0⟩)
        (DateTime.toOptions ⟨2024, 1, 2, 0, 0, 0⟩) = true ∧
      equal (DateTime.toOptions ⟨2024, 1, 1, 0, 0, 0⟩)
        (DateTime.toOptions ⟨2024, 1, 2, 0, 0, 0⟩) = true) ∧
    ¬(before (DateTime.toOptions ⟨2024, 1, 1, 0, 0, 0⟩)
        (DateTime.toOptions ⟨2024, 1, 2, 0, 0, 0⟩) = true ∧
      after (DateTime.toOptions ⟨2024, 1, 1, 0, 0, 0⟩)
        (DateTime.toOptions ⟨2024, 1, 2, 0, 0, 0⟩) = true) ∧
    ¬(equal (DateTime.toOptions ⟨2024, 1, 1, 0, 0, 0⟩)
        (DateTime.toOptions ⟨2024, 1, 2, 0, 0, 0⟩) = true ∧
      after (DateTime.toOptions ⟨2024, 1, 1, 0, 0, 0⟩)
        (DateTime.toOptions ⟨2024, 1, 2, 0, 0, 0⟩) = true) ∧
    compare (DateTime.toOptions ⟨2024, 1, 1, 0, 0, 0⟩)
        (DateTime.toOptions ⟨2024, 1, 2, 0, 0, 0⟩) ≠ Comparison.undefined ∧
    (compare (DateTime.toOptions ⟨2024, 1, 1, 0, 0, 0⟩)
        (DateTime.toOptions ⟨2024, 1, 2, 0, 0, 0⟩) = Comparison.before ↔
      compare (DateTime.toOptions ⟨2024, 1, 2, 0, 0, 0⟩)
        (DateTime.toOptions ⟨2024, 1, 1, 0, 0, 0⟩) = Comparison.after) ∧
    ((compare (DateTime.toOptions ⟨2024, 1, 1, 0, 0, 0⟩)
        (DateTime.toOptions ⟨2024, 1, 2, 0, 0, 0⟩) = Comparison.before ∧
      compare (DateTime.toOptions ⟨2024, 1, 2, 0, 0, 0⟩)
        (DateTime.toOptions ⟨2024, 1, 3, 0, 0, 0⟩) = Comparison.before) →
      compare (DateTime.toOptions ⟨2024, 1, 1, 0, 0, 0⟩)
        (DateTime.toOptions ⟨2024, 1, 3, 0, 0, 0⟩) = Comparison.before) :=
  C6_comparison_total _ _ _ _ _ _ (toReferenceSeconds_toOptions _)
    (toReferenceSeconds_toOptions _) (toReferenceSeconds_toOptions _)

/-- C7: `fromReferenceSeconds` throws exactly on non-finite input, and
`dateTime`/`normalize` throws exactly when some field (after defaulting
`minutes` and `seconds` to 0) is NaN or infinite. -/
theorem C7_nonfinite_error (x : JsNum) (o : DateTimeOptions) :
    ((∃ e, fromReferenceSecondsChecked x = .error e) ↔ x.isFinite = false) ∧
    ((∃ e, dateTime o = .error e) ↔
      (o.year.isFinite = false ∨ o.month.isFinite = false ∨ o.day.isFinite = false ∨
       o.hours.isFinite = false ∨ (o.minutes.getD (.fin 0)).isFinite = false ∨
       (o.seconds.getD (.fin 0)).isFinite = false)) := by
  constructor
  · cases x <;> simp [fromReferenceSecondsChecked, JsNum.isFinite]
  · constructor
    · rintro ⟨e, he⟩
      by_contra hall
      push_neg at hall
      simp only [Bool.not_eq_false] at hall
      obtain ⟨hy, hm, hd, hh, hmi, hs⟩ := hall
      obtain ⟨qy, hy⟩ := (JsNum.isFinite_iff_exists_fin _).mp hy
      obtain ⟨qm, hm⟩ := (JsNum.isFinite_iff_exists_fin _).mp hm
      obtain ⟨qd, hd⟩ := (JsNum.isFinite_iff_exists_fin _).mp hd
      obtain ⟨qh, hh⟩ := (JsNum.isFinite_iff_exists_fin _).mp hh
      obtain ⟨qmi, hmi⟩ := (JsNum.isFinite_iff_exists_fin _).mp hmi
      obtain ⟨qs, hs⟩ := (JsNum.isFinite_iff_exists_fin _).mp hs
      rw [dateTime, toReferenceSeconds_eq_fin o qy qm qd qh qmi qs hy hm hd hh hmi hs] at he
      exact absurd he (by simp [fromReferenceSecondsChecked])
    · intro h
      have hnf : (toReferenceSeconds o).isFinite = false := by
        by_contra hf
        rw [Bool.not_eq_false] at hf
        have hall := toReferenceSeconds_isFinite hf
        rcases h with h | h | h | h | h | h <;> simp_all
      unfold dateTime fromReferenceSecondsChecked
      rcases hx : toReferenceSeconds o with q | p | _
      · rw [hx] at hnf
        simp [JsNum.isFinite] at hnf
      · exact ⟨"Invalid date-time", rfl⟩
      · exact ⟨"Invalid date-time", rfl⟩

/-- C9: `earliest` and `latest` return whichever original argument compares
earlier or later on reference seconds, and both return `a` on ties. -/
theorem C9_earliest_latest (a b : DateTimeOptions) (qa qb : ℚ)
    (ha : toReferenceSeconds a = .fin qa) (hb : toReferenceSeconds b = .fin qb) :
    (qa ≤ qb → earliest a b = a) ∧ (qb < qa → earliest a b = b) ∧
    (qa < qb → latest a b = b) ∧ (qb ≤ qa → latest a b = a) := by
  unfold earliest latest after before
  rw [ha, hb]
  simp only [JsNum.gt, JsNum.lt, decide_eq_true_eq]
  refine ⟨?_, ?_, ?_, ?_⟩ <;> intro h <;> split_ifs with h2 <;> first | rfl | linarith

/-- Witness for C9 at concrete values one day apart. -/
theorem C9_witness :
    ((toReferenceSecondsDT ⟨2024, 1, 1, 0, 0, 0⟩ ≤ toReferenceSecondsDT ⟨2024, 1, 2, 0, 0, 0⟩ →
      earliest (DateTime.toOptions ⟨2024, 1, 1, 0, 0, 0⟩)
        (DateTime.toOptions ⟨2024, 1, 2, 0, 0, 0⟩) = DateTime.toOptions ⟨2024, 1, 1, 0, 0, 0⟩) ∧
    (toReferenceSecondsDT ⟨2024, 1, 2, 0, 0, 0⟩ < toReferenceSecondsDT ⟨2024, 1, 1, 0, 0, 0⟩ →
      earliest (DateTime.toOptions ⟨2024, 1, 1, 0, 0, 0⟩)
        (DateTime.toOptions ⟨2024, 1, 2, 0, 0, 0⟩) = DateTime.toOptions ⟨2024, 1, 2, 0, 0, 0⟩) ∧
    (toReferenceSecondsDT ⟨2024, 1, 1, 0, 0, 0⟩ < toReferenceSecondsDT ⟨2024, 1, 2, 0, 0, 0⟩ →
      latest (DateTime.toOptions ⟨2024, 1, 1, 0, 0, 0⟩)
        (DateTime.toOptions ⟨2024, 1, 2, 0, 0, 0⟩) = DateTime.toOptions ⟨2024, 1, 2, 0, 0, 0⟩) ∧
    (toReferenceSecondsDT ⟨2024, 1, 2, 0, 0, 0⟩ ≤ toReferenceSecondsDT ⟨2024, 1, 1, 0, 0, 0⟩ →
      latest (DateTime.toOptions ⟨2024, 1, 1, 0, 0, 0⟩)
        (DateTime.toOptions ⟨2024, 1, 2, 0, 0, 0⟩) = DateTime.toOptions ⟨2024, 1, 1, 0, 0, 0⟩)) :=
  C9_earliest_latest _ _ _ _ (toReferenceSeconds_toOptions _) (toReferenceSeconds_toOptions _)

/-- C10: with a NaN field (after defaulting), the comparisons are still total
functions but equality is not reflexive: `equal(a,a)` is false, `notEqual(a,a)`
is true, and `compare(a,a)` is the `undefined` outcome. -/
theorem C10_nan_comparisons (a : DateTimeOptions)
    (h : a.year = .nan ∨ a.month = .nan ∨ a.day = .nan ∨ a.hours = .nan ∨
      a.minutes.getD (.fin 0) = .nan ∨ a.seconds.getD (.fin 0) = .nan) :
    equal a a = false ∧ notEqual a a = true ∧ compare a a = Comparison.undefined := by
  have hn := toReferenceSeconds_nan h
  unfold equal notEqual compare
  rw [hn]
  exact ⟨rfl, rfl, rfl⟩

/-- Witness for C10 with a NaN year. -/
theorem C10_witness :
    equal ⟨.nan, .fin 1, .fin 1, .fin 0, none, none⟩
        ⟨.nan, .fin 1, .fin 1, .fin 0, none, none⟩ = false ∧
    notEqual ⟨.nan, .fin 1, .fin 1, .fin 0, none, none⟩
        ⟨.nan, .fin 1, .fin 1, .fin 0, none, none⟩ = true ∧
    compare ⟨.nan, .fin 1, .fin 1, .fin 0, none, none⟩
        ⟨.nan, .fin 1, .fin 1, .fin 0, none, none⟩ = Comparison.undefined :=
  C10_nan_comparisons ⟨.nan, .fin 1, .fin 1, .fin 0, none, none⟩ (Or.inl rfl)

/-- C1 (code bug): at a concrete clock reading — 26 January 2024 (a Friday,
so `getDay() = 5`), 11:57:23.500 local time — `nowDeviceLocal` populates
`month` with the 0-based `getMonth()` (no `+ 1`), `day` with the day of the
week from `getDay()`, and `minutes` with `getHours()`, and the resulting
record is not valid (its January `month` is `0`); `nowUtc` at the same
reading has the correct fields `1`, `26`, `57`. -/
theorem C1_nowDeviceLocal_wrong_fields :
    nowDeviceLocal ⟨2024, 0, 26, 5, 11, 57, 23, 500⟩
        = ⟨2024, 0, 5, 11, 11, 47 / 2⟩ ∧
    nowUtc ⟨2024, 0, 26, 5, 11, 57, 23, 500⟩
        = ⟨2024, 1, 26, 11, 57, 47 / 2⟩ ∧
    isValid (DateTime.toOptions (nowDeviceLocal ⟨2024, 0, 26, 5, 11, 57, 23, 500⟩))
        = false := by
  refine ⟨?_, ?_, ?_⟩
  · unfold nowDeviceLocal
    simp only [DateTime.mk.injEq]
    norm_num
  · unfold nowUtc
    simp only [DateTime.mk.injEq]
    norm_num
  · rw [← Bool.not_eq_true]
    intro hval
    obtain ⟨y, m, dd, hh, mm, hyq, hmq, hdq, hhq, hmiq, h1, h2, h3, h4, h5, h6, h7, h8,
      h9, h10⟩ := isValid_elim hval
    have hm0 : ((0 : ℤ) : ℚ) = (m : ℚ) := hmq
    have : (0 : ℤ) = m := by exact_mod_cast hm0
    omega

/-- C2 (code bug): a structurally well-formed ISO-8601 date-time whose
sub-second fraction uses `,` as the decimal separator is rejected by the
regex (which admits only `.` in the seconds group), so `parseIso8601`
returns `null` even though the subsequent `text.replace(",", ".")` call
shows commas were meant to be supported; the same string with `.` parses. -/
theorem C2_comma_fraction_rejected :
    parseIso8601 "2024-01-26T11:57:23,5" = .ok none ∧
    (execIso8601 "2024-01-26T11:57:23.5").isSome = true := by
  constructor
  · rfl
  · rfl

/-- C8: `parseIso8601` never throws — every string yields either a parsed
`DateTime` or `null` — and a string carrying a timezone designator (trailing
`Z`) yields `null`. -/
theorem C8_parse_never_throws :
    (∀ s : String, ∃ r, parseIso8601 s = .ok r) ∧
    parseIso8601 "2024-01-26T11:57:23Z" = .ok none := by
  constructor
  · intro s
    unfold parseIso8601
    rcases hpw : execIso8601 s with _ | ⟨yr, mo, dy, hh, mi, se⟩
    · exact ⟨none, rfl⟩
    · refine ⟨some (fromReferenceSeconds (toReferenceSecondsDT
        ⟨(yr : ℚ), (mo : ℚ), (dy : ℚ), (hh : ℚ), ((mi.getD 0 : ℤ) : ℚ), se.getD 0⟩)), ?_⟩
      dsimp only
      rw [dateTime, toReferenceSeconds_eq_fin ⟨.fin (yr : ℚ), .fin (mo : ℚ), .fin (dy : ℚ),
        .fin (hh : ℚ), some (.fin ((mi.getD 0 : ℤ) : ℚ)), some (.fin (se.getD 0))⟩
        (yr : ℚ) (mo : ℚ) (dy : ℚ) (hh : ℚ) ((mi.getD 0 : ℤ) : ℚ) (se.getD 0)
        rfl rfl rfl rfl rfl rfl]
      rfl
  · rfl

end SV
